import Mathlib

/-! Verification development for a small CRUD API (products, users,
invoices).  The JavaScript domain models, repositories and services are
shallowly embedded as Lean functions over explicit store states; monetary
values are exact rationals, machine time and serialization are abstracted
as strings, and fallible operations return Except.  The theorems settle
the frozen claims about totals, uniqueness, deletion semantics, id
generation, duplicate e-mails, login indistinguishability, public
projections and created-at preservation. -/

namespace ApiCrud

/-- Decidable equality for Except results, used to evaluate the embedded
operations on concrete inputs. -/
instance {ε α : Type} [DecidableEq ε] [DecidableEq α] :
    DecidableEq (Except ε α)
  | .error a, .error b =>
    if h : a = b then .isTrue (by rw [h])
    else .isFalse (fun hc => h (by cases hc; rfl))
  | .error _, .ok _ => .isFalse (fun hc => Except.noConfusion hc)
  | .ok _, .error _ => .isFalse (fun hc => Except.noConfusion hc)
  | .ok a, .ok b =>
    if h : a = b then .isTrue (by rw [h])
    else .isFalse (fun hc => h (by cases hc; rfl))

/-- White-space test used by the embedding of JS String.prototype.trim
(space, tab, line feed, carriage return). -/
def isWsChar (c : Char) : Bool :=
  c.toNat = 32 || c.toNat = 9 || c.toNat = 10 || c.toNat = 13

/-- ASCII model of JS String.prototype.toLowerCase on one character. -/
def lowerChar (c : Char) : Char :=
  if 65 ≤ c.toNat ∧ c.toNat ≤ 90 then Char.ofNat (c.toNat + 32) else c

/-- Strip leading and trailing white space from a character list. -/
def trimList (l : List Char) : List Char :=
  (l.dropWhile isWsChar).rdropWhile isWsChar

/-- Embedding of JS String.prototype.trim. -/
def jsTrim (s : String) : String := ⟨trimList s.data⟩

/-- Embedding of JS String.prototype.toLowerCase (ASCII model). -/
def jsToLower (s : String) : String := ⟨s.data.map lowerChar⟩

/-- Embedding of JS Number(x.toFixed(2)) on the exact rational value:
round to the nearest multiple of 1/100 (ties up, as for the nonnegative
amounts handled by the system). -/
def round2 (q : ℚ) : ℚ := (round (q * 100) : ℤ) / 100

/-- Embedding of the e-mail normalization performed by the Usuario model:
trim then lower-case.  The provider-specific canonicalization of the
external validator library is abstracted away (identity on its
already-lowercased input). -/
def normalizeEmail (s : String) : String := jsToLower (jsTrim s)

/-- Domain model Produto (src/models/Produto.js). -/
structure Produto where
  id : Option Int
  nome : String
  preco : ℚ
deriving DecidableEq

/-- Embedding of the Produto constructor: trimmed name of length at least
2, finite nonnegative price rounded to 2 decimals. -/
def Produto.make (id : Option Int) (nome : String) (preco : ℚ) :
    Except String Produto :=
  let nomeStr := jsTrim nome
  if nomeStr.length < 2 then
    .error "Nome do produto muito curto (mínimo 2 caracteres)."
  else if preco < 0 then
    .error "Preço inválido (use número >= 0)."
  else
    .ok { id := id, nome := nomeStr, preco := round2 preco }

/-- A row of the products JSON file (a plain object persisted by
toPlain, always carrying its generated id). -/
structure PlainProduto where
  id : Int
  nome : String
  preco : ℚ
deriving DecidableEq

namespace ProdutoJsonRepository

/-- Reading a row back runs Produto.fromPlain, i.e. the constructor. -/
def rowToModel (r : PlainProduto) : Except String Produto :=
  Produto.make (some r.id) r.nome r.preco

/-- findById over the JSON file content (src/repositories/ProdutoJsonRepository.js). -/
def findById (lista : List PlainProduto) (id : Int) :
    Except String (Option Produto) :=
  match lista.find? (fun p => p.id == id) with
  | none => .ok none
  | some r => (rowToModel r).map some

/-- The generated id: max of the existing ids plus one, or 1 for an empty
store. -/
def maxIdPlus1 (lista : List PlainProduto) : Int :=
  match (lista.map PlainProduto.id).max? with
  | none => 1
  | some m => m + 1

/-- create: read the list, generate the id, rebuild and validate the model,
append its plain form. -/
def create (lista : List PlainProduto) (m : Produto) :
    Except String (List PlainProduto × Produto) :=
  let novoId := maxIdPlus1 lista
  match Produto.make (some novoId) m.nome m.preco with
  | .error e => .error e
  | .ok novo => .ok (lista ++ [⟨novoId, novo.nome, novo.preco⟩], novo)

/-- Replace the first row with the given id (lista[idx] assignment after
findIndex). -/
def setFirst (lista : List PlainProduto) (id : Int) (r : PlainProduto) :
    List PlainProduto :=
  match lista with
  | [] => []
  | p :: rest => if p.id == id then r :: rest else p :: setFirst rest id r

/-- update: find the row, keep old fields for those not supplied, validate
through the model, store the plain form. -/
def update (lista : List PlainProduto) (id : Int) (nome : Option String)
    (preco : Option ℚ) : Except String (List PlainProduto × Option Produto) :=
  match lista.find? (fun p => p.id == id) with
  | none => .ok (lista, none)
  | some atual =>
    match Produto.make (some id) (nome.getD atual.nome) (preco.getD atual.preco) with
    | .error e => .error e
    | .ok atualizado =>
      .ok (setFirst lista id ⟨id, atualizado.nome, atualizado.preco⟩,
           some atualizado)

/-- delete: filter the id out; true iff the length changed. -/
def delete (lista : List PlainProduto) (id : Int) :
    List PlainProduto × Bool :=
  let filtrado := lista.filter (fun p => p.id != id)
  if filtrado.length ≠ lista.length then (filtrado, true) else (lista, false)

end ProdutoJsonRepository

/-- State of the in-memory product fallback store: the plain items plus the
id sequence field set by its constructor (never consulted by create). -/
structure ProdutoMemState where
  items : List PlainProduto
  idSeq : Int
deriving DecidableEq

namespace ProdutoMemoryRepository

/-- create of the memory fallback repository: same max-plus-one generation
as the JSON repository, over the in-memory list. -/
def create (st : ProdutoMemState) (m : Produto) :
    Except String (ProdutoMemState × Produto) :=
  let novoId := ProdutoJsonRepository.maxIdPlus1 st.items
  match Produto.make (some novoId) m.nome m.preco with
  | .error e => .error e
  | .ok novo =>
      .ok ({ items := st.items ++ [⟨novoId, novo.nome, novo.preco⟩],
             idSeq := st.idSeq }, novo)

/-- delete of the memory fallback repository. -/
def delete (st : ProdutoMemState) (id : Int) : ProdutoMemState × Bool :=
  let filtrado := st.items.filter (fun p => p.id != id)
  if filtrado.length ≠ st.items.length then
    ({ items := filtrado, idSeq := st.idSeq }, true)
  else (st, false)

end ProdutoMemoryRepository

namespace ProdutoService

/-- Service create: model validation then repository create. -/
def create (lista : List PlainProduto) (nome : String) (preco : ℚ) :
    Except String Produto × List PlainProduto :=
  match Produto.make none nome preco with
  | .error e => (.error e, lista)
  | .ok model =>
    match ProdutoJsonRepository.create lista model with
    | .error e => (.error e, lista)
    | .ok (l2, criado) => (.ok criado, l2)

/-- Service get: not-found error on a miss. -/
def get (lista : List PlainProduto) (id : Int) : Except String Produto :=
  match ProdutoJsonRepository.findById lista id with
  | .error e => .error e
  | .ok none => .error "Produto não encontrado"
  | .ok (some m) => .ok m

/-- Service update: look up the current model, merge missing fields,
revalidate, delegate to the repository. -/
def update (lista : List PlainProduto) (id : Int) (nome : Option String)
    (preco : Option ℚ) : Except String Produto × List PlainProduto :=
  match ProdutoJsonRepository.findById lista id with
  | .error e => (.error e, lista)
  | .ok none => (.error "Produto não encontrado", lista)
  | .ok (some atual) =>
    match Produto.make (some id) (nome.getD atual.nome) (preco.getD atual.preco) with
    | .error e => (.error e, lista)
    | .ok validado =>
      match ProdutoJsonRepository.update lista id (some validado.nome)
          (some validado.preco) with
      | .error e => (.error e, lista)
      | .ok (l2, none) => (.error "TypeError: toPlain de null", l2)
      | .ok (l2, some upd) => (.ok upd, l2)

/-- Service remove: repository delete, not-found error when nothing was
removed. -/
def remove (lista : List PlainProduto) (id : Int) :
    Except String Bool × List PlainProduto :=
  let res := ProdutoJsonRepository.delete lista id
  if res.2 then (.ok true, res.1) else (.error "Produto não encontrado", res.1)

end ProdutoService

/-- A line item of an invoice: product reference and quantity. -/
structure Item where
  productId : Int
  qtd : ℚ
deriving DecidableEq

/-- Embedding of normalizarItens (src/models/NotaFiscal.js), carrying the
item index used by the error messages. -/
def normalizarItensAux : Nat → List Item → Except String (List Item)
  | _, [] => .ok []
  | idx, it :: rest =>
    if it.productId ≤ 0 then
      .error ("itens[" ++ toString idx ++ "].productId inválido (use inteiro > 0).")
    else if it.qtd ≤ 0 then
      .error ("itens[" ++ toString idx ++ "].qtd inválida (use número > 0).")
    else
      match normalizarItensAux (idx + 1) rest with
      | .error e => .error e
      | .ok r => .ok (it :: r)

def normalizarItens (l : List Item) : Except String (List Item) :=
  normalizarItensAux 0 l

/-- Domain model NotaFiscal (src/models/NotaFiscal.js); created_at is the
ISO string stamped by the service (paraIsoDate is the identity on such
strings). -/
structure NotaFiscal where
  id : Option Int
  numero : String
  cliente_nome : String
  itens : List Item
  total : ℚ
  created_at : String
deriving DecidableEq

/-- Embedding of the NotaFiscal constructor: nonempty trimmed number,
client name of length at least 2, normalized items, nonnegative total
rounded to 2 decimals. -/
def NotaFiscal.make (id : Option Int) (numero cliente_nome : String)
    (itens : List Item) (total : ℚ) (created_at : String) :
    Except String NotaFiscal :=
  let numeroStr := jsTrim numero
  if numeroStr = "" then .error "Número da nota é obrigatório."
  else
    let clienteStr := jsTrim cliente_nome
    if clienteStr.length < 2 then .error "Nome do cliente muito curto."
    else
      match normalizarItens itens with
      | .error e => .error e
      | .ok itensNorm =>
        if total < 0 then .error "Total inválido (use número >= 0)."
        else .ok ⟨id, numeroStr, clienteStr, itensNorm, round2 total, created_at⟩

/-- A row of the notas_fiscais SQLite table; the itens_json column holds
the parsed JSON array (serialization abstracted as the list itself). -/
structure NfRow where
  id : Int
  numero : String
  cliente_nome : String
  itens_json : List Item
  total : ℚ
  created_at : String
deriving DecidableEq

/-- The notas_fiscais table together with its AUTOINCREMENT counter. -/
structure NotasDb where
  rows : List NfRow
  seq : Int
deriving DecidableEq

namespace NotaFiscalSqliteRepository

/-- fromDbRow: parse the items column and run the model constructor. -/
def fromDbRow (r : NfRow) : Except String NotaFiscal :=
  NotaFiscal.make (some r.id) r.numero r.cliente_nome r.itens_json r.total
    r.created_at

def findById (db : NotasDb) (id : Int) : Except String (Option NotaFiscal) :=
  match db.rows.find? (fun r => r.id == id) with
  | none => .ok none
  | some r => (fromDbRow r).map some

def findByNumero (db : NotasDb) (numero : String) :
    Except String (Option NotaFiscal) :=
  match db.rows.find? (fun r => r.numero == numero) with
  | none => .ok none
  | some r => (fromDbRow r).map some

/-- INSERT honoring UNIQUE(numero) and AUTOINCREMENT, then the row is read
back through findById. -/
def create (db : NotasDb) (m : NotaFiscal) :
    Except String (NotasDb × Option NotaFiscal) :=
  if db.rows.any (fun r => r.numero == m.numero) then
    .error "UNIQUE constraint failed: notas_fiscais.numero"
  else
    let newId := db.seq + 1
    let db2 : NotasDb :=
      ⟨db.rows ++ [⟨newId, m.numero, m.cliente_nome, m.itens, m.total,
        m.created_at⟩], newId⟩
    (findById db2 newId).map (fun o => (db2, o))

/-- The effect of the UPDATE statement on one row: every column except
created_at is overwritten on the addressed row. -/
def updRow (id : Int) (m : NotaFiscal) (r : NfRow) : NfRow :=
  if r.id == id then
    { r with
      numero := m.numero
      cliente_nome := m.cliente_nome
      itens_json := m.itens
      total := m.total }
  else r

/-- UPDATE of every column except created_at, honoring UNIQUE(numero);
toDbUpdateParams first requires the model id to be present. -/
def update (db : NotasDb) (id : Int) (m : NotaFiscal) :
    Except String (NotasDb × Option NotaFiscal) :=
  if m.id == none then .error "id ausente para atualizar a nota."
  else if (db.rows.any (fun r => r.id == id)) &&
      (db.rows.any (fun r => r.id != id && r.numero == m.numero)) then
    .error "UNIQUE constraint failed: notas_fiscais.numero"
  else
    (findById ⟨db.rows.map (updRow id m), db.seq⟩ id).map
      (fun o => (⟨db.rows.map (updRow id m), db.seq⟩, o))

/-- DELETE; true iff at least one row was removed. -/
def delete (db : NotasDb) (id : Int) : NotasDb × Bool :=
  let remaining := db.rows.filter (fun r => r.id != id)
  (⟨remaining, db.seq⟩, decide (remaining.length < db.rows.length))

end NotaFiscalSqliteRepository

/-- The request payload of invoice create/update; body fields that were
not supplied are none. -/
structure NotaPayload where
  numero : Option String
  cliente_nome : Option String
  itens : Option (List Item)

namespace NotaFiscalService

/-- Error message naming a product missing from the product store. -/
def errProdutoNaoEncontrado (pid : Int) : String :=
  "Produto id=" ++ toString pid ++ " não encontrado"

/-- Error message naming the product whose quantity is invalid. -/
def errQtdInvalida (nome : String) : String :=
  "Quantidade inválida para produto " ++ nome

/-- calcularTotal: per-item product resolution against the product store,
quantity check, and the accumulated sum rounded to 2 decimals at the end. -/
def calcularTotalAux (pstore : List PlainProduto) (acc : ℚ) :
    List Item → Except String ℚ
  | [] => .ok (round2 acc)
  | item :: rest =>
    match ProdutoJsonRepository.findById pstore item.productId with
    | .error e => .error e
    | .ok none => .error (errProdutoNaoEncontrado item.productId)
    | .ok (some prod) =>
      if item.qtd ≤ 0 then .error (errQtdInvalida prod.nome)
      else calcularTotalAux pstore (acc + prod.preco * item.qtd) rest

def calcularTotal (pstore : List PlainProduto) (itens : List Item) :
    Except String ℚ :=
  calcularTotalAux pstore 0 itens

/-- Service create: basic validation (undefined or empty fields are
falsy), duplicate number check, total computation against the product
store, model construction stamped with the current instant, persistence.
The post-state is returned next to the result; every failing path leaves
the invoice store unchanged. -/
def create (pstore : List PlainProduto) (db : NotasDb) (now : String)
    (p : NotaPayload) : Except String NotaFiscal × NotasDb :=
  match p.numero, p.cliente_nome, p.itens with
  | some numero, some cliente_nome, some itens =>
    if numero == "" || cliente_nome == "" then
      (.error "Dados inválidos da nota", db)
    else
      match NotaFiscalSqliteRepository.findByNumero db numero with
      | .error e => (.error e, db)
      | .ok (some _) => (.error "Número de nota já existente", db)
      | .ok none =>
        match calcularTotal pstore itens with
        | .error e => (.error e, db)
        | .ok total =>
          match NotaFiscal.make none numero cliente_nome itens total now with
          | .error e => (.error e, db)
          | .ok model =>
            match NotaFiscalSqliteRepository.create db model with
            | .error e => (.error e, db)
            | .ok (db2, some criada) => (.ok criada, db2)
            | .ok (db2, none) => (.error "TypeError: toPlain de null", db2)
  | _, _, _ => (.error "Dados inválidos da nota", db)

/-- Service update: existence check, duplicate check when the number
changes, recomputation of the total from the supplied (or current) items,
model rebuilt with the original created_at, persistence. -/
def update (pstore : List PlainProduto) (db : NotasDb) (id : Int)
    (p : NotaPayload) : Except String NotaFiscal × NotasDb :=
  match NotaFiscalSqliteRepository.findById db id with
  | .error e => (.error e, db)
  | .ok none => (.error "Nota não encontrada", db)
  | .ok (some atual) =>
    let numeroMudou := match p.numero with
      | some s => !(s == "") && !(s == atual.numero)
      | none => false
    let dupCheck : Except String Unit :=
      if numeroMudou then
        match NotaFiscalSqliteRepository.findByNumero db (p.numero.getD "") with
        | .error e => .error e
        | .ok (some _) => .error "Número de nota já existente"
        | .ok none => .ok ()
      else .ok ()
    match dupCheck with
    | .error e => (.error e, db)
    | .ok _ =>
      let itensParaCalculo := p.itens.getD atual.itens
      match calcularTotal pstore itensParaCalculo with
      | .error e => (.error e, db)
      | .ok total =>
        match NotaFiscal.make (some id) (p.numero.getD atual.numero)
            (p.cliente_nome.getD atual.cliente_nome) itensParaCalculo total
            atual.created_at with
        | .error e => (.error e, db)
        | .ok model =>
          match NotaFiscalSqliteRepository.update db id model with
          | .error e => (.error e, db)
          | .ok (db2, some atualizada) => (.ok atualizada, db2)
          | .ok (db2, none) => (.error "TypeError: toPlain de null", db2)

/-- Service remove: repository delete, not-found error when nothing was
removed. -/
def remove (db : NotasDb) (id : Int) : Except String Bool × NotasDb :=
  let res := NotaFiscalSqliteRepository.delete db id
  if res.2 then (.ok true, res.1) else (.error "Nota não encontrada", res.1)

end NotaFiscalService

/-- State of the in-memory invoice fallback store: stored models plus the
id sequence counter set at construction and bumped by create. -/
structure NfMemState where
  items : List NotaFiscal
  idSeq : Int
deriving DecidableEq

namespace NotaFiscalMemoryRepository

/-- Number(n.id) comparison used by the memory store (a null id coerces
to 0). -/
def idMatches (n : NotaFiscal) (id : Int) : Bool := n.id.getD 0 == id

def findById (st : NfMemState) (id : Int) : Option NotaFiscal :=
  st.items.find? (fun n => idMatches n id)

def findByNumero (st : NfMemState) (numero : String) : Option NotaFiscal :=
  st.items.find? (fun n => n.numero == numero)

/-- create: pre-increment the sequence counter, rebuild the model with the
new id, unshift it, read it back.  The counter stays incremented even when
the constructor rejects the fields. -/
def create (st : NfMemState) (m : NotaFiscal) :
    Except String (Option NotaFiscal) × NfMemState :=
  let seq2 := st.idSeq + 1
  match NotaFiscal.make (some seq2) m.numero m.cliente_nome m.itens m.total
      m.created_at with
  | .error e => (.error e, ⟨st.items, seq2⟩)
  | .ok novo => (.ok (findById ⟨novo :: st.items, seq2⟩ seq2),
      ⟨novo :: st.items, seq2⟩)

/-- Replace the first stored model with the given id. -/
def setFirst (l : List NotaFiscal) (id : Int) (x : NotaFiscal) :
    List NotaFiscal :=
  match l with
  | [] => []
  | n :: rest => if idMatches n id then x :: rest else n :: setFirst rest id x

def update (st : NfMemState) (id : Int) (m : NotaFiscal) :
    Except String (Option NotaFiscal) × NfMemState :=
  if (st.items.find? (fun n => idMatches n id)).isNone then (.ok none, st)
  else
    match NotaFiscal.make (some id) m.numero m.cliente_nome m.itens m.total
        m.created_at with
    | .error e => (.error e, st)
    | .ok atualizado => (.ok (findById ⟨setFirst st.items id atualizado,
        st.idSeq⟩ id), ⟨setFirst st.items id atualizado, st.idSeq⟩)

def delete (st : NfMemState) (id : Int) : NfMemState × Bool :=
  let items2 := st.items.filter (fun n => !(idMatches n id))
  (⟨items2, st.idSeq⟩, decide (items2.length ≠ st.items.length))

end NotaFiscalMemoryRepository

/-- One call against the in-memory invoice repository, for stating
process-lifetime id properties. -/
inductive NfMemOp where
  | createOp (m : NotaFiscal)
  | updateOp (id : Int) (m : NotaFiscal)
  | deleteOp (id : Int)

/-- Post-state of one repository call. -/
def NfMemState.step (st : NfMemState) : NfMemOp → NfMemState
  | .createOp m => (NotaFiscalMemoryRepository.create st m).2
  | .updateOp id m => (NotaFiscalMemoryRepository.update st id m).2
  | .deleteOp id => (NotaFiscalMemoryRepository.delete st id).1

/-- Post-state of a sequence of repository calls. -/
def NfMemState.run (st : NfMemState) : List NfMemOp → NfMemState
  | [] => st
  | op :: ops => NfMemState.run (st.step op) ops

/-- Abstraction of isEmail from the external validator library: exactly
one at sign, not at either end. -/
def isEmailB (s : String) : Bool :=
  (s.data.count (Char.ofNat 64) == 1) &&
    !(s.data.head? == some (Char.ofNat 64)) &&
    !(s.data.getLast? == some (Char.ofNat 64))

/-- Domain model Usuario (src/models/Usuario.js). -/
structure Usuario where
  id : Option Int
  nome : String
  email : String
  senha_hash : String
  created_at : String
deriving DecidableEq

/-- Embedding of the Usuario constructor: trimmed name of length at least
2, trimmed lower-cased syntactically valid e-mail, nonempty password
hash. -/
def Usuario.make (id : Option Int) (nome email senha_hash created_at : String) :
    Except String Usuario :=
  let nomeStr := jsTrim nome
  if nomeStr.length < 2 then .error "Nome muito curto (mínimo 2 caracteres)."
  else
    let emailStr := normalizeEmail email
    if !(isEmailB emailStr) then .error "E-mail inválido."
    else
      let senhaHashStr := jsTrim senha_hash
      if senhaHashStr = "" then .error "senha_hash ausente."
      else .ok ⟨id, nomeStr, emailStr, senhaHashStr, created_at⟩

/-- The public projection of a user; this type has no senha_hash field at
all. -/
structure PublicUsuario where
  id : Option Int
  nome : String
  email : String
  created_at : String
deriving DecidableEq

/-- toPublic: the outward-facing view of a user. -/
def Usuario.toPublic (u : Usuario) : PublicUsuario :=
  ⟨u.id, u.nome, u.email, u.created_at⟩

/-- The payload carried by an issued JWT: only id and e-mail. -/
structure TokenPayload where
  id : Option Int
  email : String
deriving DecidableEq

/-- Modelled from the spec: the external token-signing collaborator is
out of scope; a token is represented by its signed payload. -/
def generateJwt (payload : TokenPayload) : TokenPayload := payload

/-- Embedding of hashSenha (utils/crypto.js): reject an empty plaintext,
then delegate to the external bcrypt collaborator, an abstract
parameter. -/
def hashSenha (hash : String → String) (plaintext : String) :
    Except String String :=
  if plaintext = "" then
    .error "Senha inválida: informe uma string não vazia."
  else .ok (hash plaintext)

/-- Embedding of compareSenha (utils/crypto.js) with the external bcrypt
comparison as an abstract parameter. -/
def compareSenha (compare : String → String → Bool)
    (plaintext hashed : String) : Bool :=
  compare plaintext hashed

/-- A row of the usuarios table. -/
structure UserRow where
  id : Int
  nome : String
  email : String
  senha_hash : String
  created_at : String
deriving DecidableEq

/-- The usuarios table (SQLite or MySQL) with its auto-increment
counter. -/
structure UsersDb where
  rows : List UserRow
  seq : Int
deriving DecidableEq

namespace UsuarioSqliteRepository

/-- fromDbRow runs the model constructor on the selected row. -/
def fromDbRow (r : UserRow) : Except String Usuario :=
  Usuario.make (some r.id) r.nome r.email r.senha_hash r.created_at

def findById (db : UsersDb) (id : Int) : Except String (Option Usuario) :=
  match db.rows.find? (fun r => r.id == id) with
  | none => .ok none
  | some r => (fromDbRow r).map some

def findByEmail (db : UsersDb) (email : String) :
    Except String (Option Usuario) :=
  match db.rows.find? (fun r => r.email == email) with
  | none => .ok none
  | some r => (fromDbRow r).map some

/-- SELECT ordered by id descending, each row converted to a model. -/
def findAll (db : UsersDb) : Except String (List Usuario) :=
  (db.rows.insertionSort (fun a b => a.id ≥ b.id)).mapM fromDbRow

/-- INSERT (nome, email, senha_hash) honoring UNIQUE(email); created_at
comes from the column default, the current instant. -/
def create (db : UsersDb) (m : Usuario) (now : String) :
    Except String (UsersDb × Option Usuario) :=
  if db.rows.any (fun r => r.email == m.email) then
    .error "UNIQUE constraint failed: usuarios.email"
  else
    let newId := db.seq + 1
    let db2 : UsersDb :=
      ⟨db.rows ++ [⟨newId, m.nome, m.email, m.senha_hash, now⟩], newId⟩
    (findById db2 newId).map (fun o => (db2, o))

/-- UPDATE nome/email WHERE id; the driver rejects an undefined binding;
UNIQUE(email) still applies. -/
def update (db : UsersDb) (id : Int) (nome email : Option String) :
    Except String (UsersDb × Option Usuario) :=
  match nome, email with
  | some nomeV, some emailV =>
    if (db.rows.any (fun r => r.id == id)) &&
        (db.rows.any (fun r => r.id != id && r.email == emailV)) then
      .error "UNIQUE constraint failed: usuarios.email"
    else
      let rows2 := db.rows.map (fun r =>
        if r.id == id then { r with nome := nomeV, email := emailV } else r)
      let db2 : UsersDb := ⟨rows2, db.seq⟩
      (findById db2 id).map (fun o => (db2, o))
  | _, _ => .error "TypeError: bind de undefined"

/-- DELETE; true iff at least one row was removed. -/
def delete (db : UsersDb) (id : Int) : UsersDb × Bool :=
  let remaining := db.rows.filter (fun r => r.id != id)
  (⟨remaining, db.seq⟩, decide (remaining.length < db.rows.length))

end UsuarioSqliteRepository

namespace UsuarioMySqlRepository

/-- delete of the MySQL user repository: run the DELETE and return true
unconditionally, whether or not a row existed. -/
def delete (db : UsersDb) (id : Int) : UsersDb × Bool :=
  (⟨db.rows.filter (fun r => r.id != id), db.seq⟩, true)

end UsuarioMySqlRepository

namespace AuthService

/-- register: courtesy uniqueness check, hash, model construction,
persistence (where the unique constraint of the store is authoritative),
token issuance, public view.  The post-state accompanies the result and
every failing path leaves the store unchanged. -/
def register (hash : String → String) (db : UsersDb) (now : String)
    (nome email senha : String) :
    Except String (PublicUsuario × TokenPayload) × UsersDb :=
  match UsuarioSqliteRepository.findByEmail db email with
  | .error e => (.error e, db)
  | .ok (some _) => (.error "E-mail já cadastrado.", db)
  | .ok none =>
    match hashSenha hash senha with
    | .error e => (.error e, db)
    | .ok senha_hash =>
      match Usuario.make none nome email senha_hash now with
      | .error e => (.error e, db)
      | .ok novo =>
        match UsuarioSqliteRepository.create db novo now with
        | .error e => (.error e, db)
        | .ok (db2, some criado) =>
          (.ok (criado.toPublic, generateJwt ⟨criado.id, criado.email⟩), db2)
        | .ok (db2, none) => (.error "TypeError: toPublic de null", db2)

/-- login: e-mail lookup then hash comparison via the external
collaborator; one generic error for both failure modes. -/
def login (compare : String → String → Bool) (db : UsersDb)
    (email senha : String) : Except String (PublicUsuario × TokenPayload) :=
  match UsuarioSqliteRepository.findByEmail db email with
  | .error e => .error e
  | .ok none => .error "Usuário/senha inválidos."
  | .ok (some user) =>
    if !(compareSenha compare senha user.senha_hash) then
      .error "Usuário/senha inválidos."
    else .ok (user.toPublic, generateJwt ⟨user.id, user.email⟩)

end AuthService

namespace UsuarioService

/-- list: all users in their public view. -/
def list (db : UsersDb) : Except String (List PublicUsuario) :=
  (UsuarioSqliteRepository.findAll db).map
    (fun models => models.map Usuario.toPublic)

/-- get: public view of one user, not-found error on a miss. -/
def get (db : UsersDb) (id : Int) : Except String PublicUsuario :=
  match UsuarioSqliteRepository.findById db id with
  | .error e => .error e
  | .ok none => .error "Usuário não encontrado"
  | .ok (some m) => .ok m.toPublic

/-- update: e-mail uniqueness check against other users (a truthy e-mail
only), then repository update, then public view. -/
def update (db : UsersDb) (id : Int) (nome email : Option String) :
    Except String PublicUsuario × UsersDb :=
  let emailTruthy := match email with
    | some s => !(s == "")
    | none => false
  let dupCheck : Except String Unit :=
    if emailTruthy then
      match UsuarioSqliteRepository.findByEmail db (email.getD "") with
      | .error e => .error e
      | .ok (some existente) =>
        if existente.id.getD 0 != id then
          .error "E-mail já em uso por outro usuário"
        else .ok ()
      | .ok none => .ok ()
    else .ok ()
  match dupCheck with
  | .error e => (.error e, db)
  | .ok _ =>
    match UsuarioSqliteRepository.update db id nome email with
    | .error e => (.error e, db)
    | .ok (db2, none) => (.error "Usuário não encontrado", db2)
    | .ok (db2, some atual) => (.ok atual.toPublic, db2)

/-- remove: the repository delete result is ignored and true is always
returned. -/
def remove (db : UsersDb) (id : Int) : Bool × UsersDb :=
  let res := UsuarioSqliteRepository.delete db id
  (true, res.1)

/-- remove wired to the MySQL repository. -/
def removeMysql (db : UsersDb) (id : Int) : Bool × UsersDb :=
  let res := UsuarioMySqlRepository.delete db id
  (true, res.1)

end UsuarioService


/-- Spec-side resolved price: the price of the product the repository
resolves for this id, 0 when it does not resolve. -/
def resolvedPreco (pstore : List PlainProduto) (pid : Int) : ℚ :=
  match ProdutoJsonRepository.findById pstore pid with
  | .ok (some p) => p.preco
  | _ => 0

/-- Modelled from the spec: the invariant formula for an invoice total,
round(sum(resolved price times quantity), 2), written independently of
calcularTotal for comparison with it. -/
def notaSpecTotal (pstore : List PlainProduto) (itens : List Item) : ℚ :=
  round2 ((itens.map (fun it => resolvedPreco pstore it.productId * it.qtd)).sum)

/-- An item offends at computation time when its product does not resolve
or its quantity is not positive. -/
def offendingItem (pstore : List PlainProduto) (it : Item) : Prop :=
  ProdutoJsonRepository.findById pstore it.productId = .ok none ∨ it.qtd ≤ 0

/-- Every product row parses through the model constructor. -/
def WfProdutos (pstore : List PlainProduto) : Prop :=
  ∀ r ∈ pstore, ∃ p, ProdutoJsonRepository.rowToModel r = .ok p

/-- Every invoice row parses through the model constructor. -/
def WfNotas (db : NotasDb) : Prop :=
  ∀ r ∈ db.rows, ∃ m, NotaFiscalSqliteRepository.fromDbRow r = .ok m

/-- Invoice numbers are pairwise distinct. -/
def uniqueNumeros (db : NotasDb) : Prop :=
  db.rows.Pairwise (fun a b => a.numero ≠ b.numero)

/-- Invoice primary keys are pairwise distinct. -/
def uniqueNotaIds (db : NotasDb) : Prop :=
  db.rows.Pairwise (fun a b => a.id ≠ b.id)

/-- Row ids never exceed the AUTOINCREMENT counter. -/
def notaSeqInv (db : NotasDb) : Prop :=
  ∀ r ∈ db.rows, r.id ≤ db.seq

/-- The row the INSERT writes for a model at a generated id. -/
def NfRow.ofModel (id : Int) (m : NotaFiscal) : NfRow :=
  ⟨id, m.numero, m.cliente_nome, m.itens, m.total, m.created_at⟩

/-- Every user row parses through the model constructor. -/
def WfUsers (db : UsersDb) : Prop :=
  ∀ r ∈ db.rows, ∃ u, UsuarioSqliteRepository.fromDbRow r = .ok u

/-- Stored e-mails are normalized and pairwise distinct, hence at most
one stored user per normalized e-mail. -/
def NormUniqueEmails (db : UsersDb) : Prop :=
  (∀ r ∈ db.rows, normalizeEmail r.email = r.email) ∧
    db.rows.Pairwise (fun a b => a.email ≠ b.email)

/-- Memory-store invariant: every stored invoice id is assigned and at
most the sequence counter. -/
def NfMemInv (st : NfMemState) : Prop :=
  ∀ n ∈ st.items, ∃ i, n.id = some i ∧ i ≤ st.idSeq

/-! Helper lemmas about the string and rounding primitives. -/

theorem round2_idem (q : ℚ) : round2 (round2 q) = round2 q := by
  unfold round2
  rw [div_mul_cancel₀]
  · rw [round_intCast]
  · norm_num

theorem trimList_idem (l : List Char) : trimList (trimList l) = trimList l := by
  unfold trimList
  have hdrop : ((l.dropWhile isWsChar).rdropWhile isWsChar).dropWhile isWsChar
      = (l.dropWhile isWsChar).rdropWhile isWsChar := by
    rw [List.dropWhile_eq_self_iff]
    intro hl
    obtain ⟨b, B, hB⟩ :=
      List.exists_cons_of_ne_nil (List.ne_nil_of_length_pos hl)
    obtain ⟨t, ht⟩ := List.rdropWhile_prefix isWsChar (l.dropWhile isWsChar)
    have hA : l.dropWhile isWsChar = b :: (B ++ t) := by
      rw [← ht, hB]
      simp
    have hlen : 0 < (l.dropWhile isWsChar).length := by
      rw [hA]
      simp
    have hnot := List.dropWhile_get_zero_not isWsChar l hlen
    have h1 : (l.dropWhile isWsChar).get ⟨0, hlen⟩ = b := by
      rw [List.get_eq_getElem, List.getElem_of_eq hA]
      simp
    have h2 : ((l.dropWhile isWsChar).rdropWhile isWsChar).get ⟨0, hl⟩ = b := by
      rw [List.get_eq_getElem, List.getElem_of_eq hB]
      simp
    rw [h1] at hnot
    rw [h2]
    exact hnot
  rw [hdrop, List.rdropWhile_idempotent]

theorem jsTrim_idem (s : String) : jsTrim (jsTrim s) = jsTrim s := by
  unfold jsTrim
  simp [trimList_idem]

theorem ofNat_toNat_lower (c : Char) (h : 65 ≤ c.toNat ∧ c.toNat ≤ 90) :
    (Char.ofNat (c.toNat + 32)).toNat = c.toNat + 32 := by
  obtain ⟨h1, h2⟩ := h
  interval_cases h3 : c.toNat <;> decide

theorem lowerChar_idem (c : Char) : lowerChar (lowerChar c) = lowerChar c := by
  by_cases h : 65 ≤ c.toNat ∧ c.toNat ≤ 90
  · have hv := ofNat_toNat_lower c h
    simp only [lowerChar, if_pos h]
    rw [if_neg (by rw [hv]; omega)]
  · simp only [lowerChar, if_neg h]

theorem isWs_lowerChar (c : Char) : isWsChar (lowerChar c) = isWsChar c := by
  by_cases h : 65 ≤ c.toNat ∧ c.toNat ≤ 90
  · have hv := ofNat_toNat_lower c h
    simp only [lowerChar, if_pos h, isWsChar]
    rw [hv, Bool.eq_iff_iff]
    simp only [Bool.or_eq_true, decide_eq_true_eq]
    omega
  · simp only [lowerChar, if_neg h]

theorem dropWhile_map_lower (l : List Char) :
    (l.map lowerChar).dropWhile isWsChar = (l.dropWhile isWsChar).map lowerChar := by
  induction l with
  | nil => simp
  | cons a l ih =>
    simp only [List.map_cons, List.dropWhile_cons, isWs_lowerChar]
    by_cases h : isWsChar a = true
    · simp [h, ih]
    · simp [h]

theorem rdropWhile_map_lower (l : List Char) :
    (l.map lowerChar).rdropWhile isWsChar = (l.rdropWhile isWsChar).map lowerChar := by
  unfold List.rdropWhile
  rw [← List.map_reverse, dropWhile_map_lower, List.map_reverse]

theorem trimList_map_lower (l : List Char) :
    trimList (l.map lowerChar) = (trimList l).map lowerChar := by
  unfold trimList
  rw [dropWhile_map_lower, rdropWhile_map_lower]

theorem jsToLower_idem (s : String) : jsToLower (jsToLower s) = jsToLower s := by
  unfold jsToLower
  simp only [List.map_map]
  congr 1
  apply List.map_congr_left
  intro c _
  exact lowerChar_idem c

theorem jsTrim_jsToLower (s : String) :
    jsTrim (jsToLower s) = jsToLower (jsTrim s) := by
  unfold jsTrim jsToLower
  simp only
  rw [trimList_map_lower]

theorem normalizeEmail_idem (s : String) :
    normalizeEmail (normalizeEmail s) = normalizeEmail s := by
  unfold normalizeEmail
  rw [jsTrim_jsToLower, jsTrim_idem, jsToLower_idem]

theorem round2_nonneg (q : ℚ) (h : 0 ≤ q) : 0 ≤ round2 q := by
  unfold round2
  apply div_nonneg _ (by norm_num)
  rw [Int.cast_nonneg, round_eq]
  apply Int.floor_nonneg.mpr
  positivity

theorem normalizarItensAux_ok_iff (l : List Item) :
    ∀ (idx : Nat) (l2 : List Item),
      normalizarItensAux idx l = .ok l2 ↔
        (l2 = l ∧ ∀ it ∈ l, 0 < it.productId ∧ 0 < it.qtd) := by
  induction l with
  | nil =>
    intro idx l2
    constructor
    · intro h
      injection h with h
      exact ⟨h.symm, by simp⟩
    · rintro ⟨rfl, -⟩
      rfl
  | cons it rest ih =>
    intro idx l2
    unfold normalizarItensAux
    by_cases h1 : it.productId ≤ 0
    · rw [if_pos h1]
      refine iff_of_false (fun hc => Except.noConfusion hc) ?_
      rintro ⟨-, hv⟩
      exact absurd (hv it (by simp)).1 (by omega)
    · rw [if_neg h1]
      by_cases h2 : it.qtd ≤ 0
      · rw [if_pos h2]
        refine iff_of_false (fun hc => Except.noConfusion hc) ?_
        rintro ⟨-, hv⟩
        exact absurd (hv it (by simp)).2 (by simpa using h2)
      · rw [if_neg h2]
        cases hr : normalizarItensAux (idx + 1) rest with
        | error e =>
          refine iff_of_false (fun hc => Except.noConfusion hc) ?_
          rintro ⟨-, hv⟩
          have h4 := (ih (idx + 1) rest).mpr
            ⟨rfl, fun x hx => hv x (List.mem_cons_of_mem it hx)⟩
          rw [hr] at h4
          exact Except.noConfusion h4
        | ok r =>
          have h5 := (ih (idx + 1) r).mp hr
          change Except.ok (it :: r) = Except.ok l2 ↔ _
          constructor
          · intro h3
            injection h3 with h3
            refine ⟨by rw [← h3, h5.1], ?_⟩
            intro x hx
            rcases List.mem_cons.mp hx with rfl | hx2
            · exact ⟨by omega, by push_neg at h2; exact h2⟩
            · exact h5.2 x (h5.1 ▸ hx2)
          · rintro ⟨rfl, -⟩
            rw [h5.1]

theorem normalizarItens_ok_iff (l l2 : List Item) :
    normalizarItens l = .ok l2 ↔
      (l2 = l ∧ ∀ it ∈ l, 0 < it.productId ∧ 0 < it.qtd) :=
  normalizarItensAux_ok_iff l 0 l2

theorem notaMake_ok_iff (id : Option Int) (numero cliente : String)
    (itens : List Item) (total : ℚ) (created : String) (m : NotaFiscal) :
    NotaFiscal.make id numero cliente itens total created = .ok m ↔
      (jsTrim numero ≠ "" ∧ ¬ (jsTrim cliente).length < 2 ∧
       (∀ it ∈ itens, 0 < it.productId ∧ 0 < it.qtd) ∧ ¬ total < 0 ∧
       m = ⟨id, jsTrim numero, jsTrim cliente, itens, round2 total, created⟩) := by
  unfold NotaFiscal.make
  by_cases h1 : jsTrim numero = ""
  · rw [if_pos h1]
    simp [h1]
  · rw [if_neg h1]
    by_cases h2 : (jsTrim cliente).length < 2
    · rw [if_pos h2]
      simp [h1, h2]
    · rw [if_neg h2]
      cases hn : normalizarItens itens with
      | error e =>
        refine iff_of_false (fun hc => Except.noConfusion hc) ?_
        rintro ⟨-, -, hv, -, -⟩
        have h4 := (normalizarItens_ok_iff itens itens).mpr ⟨rfl, hv⟩
        rw [hn] at h4
        exact Except.noConfusion h4
      | ok itensNorm =>
        obtain ⟨hre, hv⟩ := (normalizarItens_ok_iff itens itensNorm).mp hn
        change (if total < 0 then Except.error "Total inválido (use número >= 0)."
          else Except.ok ⟨id, jsTrim numero, jsTrim cliente, itensNorm,
            round2 total, created⟩) = Except.ok m ↔ _
        subst hre
        by_cases h3 : total < 0
        · rw [if_pos h3]
          refine iff_of_false (fun hc => Except.noConfusion hc) ?_
          rintro ⟨-, -, -, hc, -⟩
          exact hc h3
        · rw [if_neg h3]
          constructor
          · intro h4
            injection h4 with h4
            exact ⟨h1, h2, hv, h3, h4.symm⟩
          · rintro ⟨-, -, -, -, rfl⟩
            rfl

theorem notaMake_roundtrip {id : Option Int} {numero cliente : String}
    {itens : List Item} {total : ℚ} {created : String} {m : NotaFiscal}
    (h : NotaFiscal.make id numero cliente itens total created = .ok m)
    (id2 : Option Int) (ca2 : String) :
    NotaFiscal.make id2 m.numero m.cliente_nome m.itens m.total ca2 =
      .ok ⟨id2, m.numero, m.cliente_nome, m.itens, m.total, ca2⟩ := by
  obtain ⟨h1, h2, h3, h4, h5⟩ := (notaMake_ok_iff _ _ _ _ _ _ _).mp h
  subst h5
  apply (notaMake_ok_iff _ _ _ _ _ _ _).mpr
  push_neg at h4
  refine ⟨by rw [jsTrim_idem]; exact h1, by rw [jsTrim_idem]; exact h2, h3,
    by simp only []; push_neg; exact round2_nonneg total h4, ?_⟩
  simp only [jsTrim_idem, round2_idem]

/-! Total computation lemmas (claims C1 and C2). -/

theorem findById_of_wf {pstore : List PlainProduto}
    (hwf : WfProdutos pstore) (pid : Int) :
    (∃ prod, ProdutoJsonRepository.findById pstore pid = .ok (some prod)) ∨
      ProdutoJsonRepository.findById pstore pid = .ok none := by
  unfold ProdutoJsonRepository.findById
  cases hf : pstore.find? (fun p => p.id == pid) with
  | none => exact Or.inr rfl
  | some r =>
    obtain ⟨p, hp⟩ := hwf r (List.mem_of_find?_eq_some hf)
    refine Or.inl ⟨p, ?_⟩
    show Except.map some (ProdutoJsonRepository.rowToModel r) = Except.ok (some p)
    rw [hp]
    rfl

theorem calcularTotalAux_ok (pstore : List PlainProduto) :
    ∀ (itens : List Item) (acc t : ℚ),
      NotaFiscalService.calcularTotalAux pstore acc itens = .ok t →
        (∀ it ∈ itens, ∃ prod,
          ProdutoJsonRepository.findById pstore it.productId = .ok (some prod)) ∧
        t = round2 (acc +
          (itens.map (fun it => resolvedPreco pstore it.productId * it.qtd)).sum) := by
  intro itens
  induction itens with
  | nil =>
    intro acc t h
    refine ⟨by simp, ?_⟩
    injection h with h
    simp [← h]
  | cons item rest ih =>
    intro acc t h
    unfold NotaFiscalService.calcularTotalAux at h
    split at h
    next e heq => exact absurd h (fun hc => Except.noConfusion hc)
    next heq => exact absurd h (fun hc => Except.noConfusion hc)
    next prod heq =>
      split at h
      next hq => exact absurd h (fun hc => Except.noConfusion hc)
      next hq =>
        obtain ⟨hall, ht⟩ := ih (acc + prod.preco * item.qtd) t h
        have hres : resolvedPreco pstore item.productId = prod.preco := by
          unfold resolvedPreco
          rw [heq]
        refine ⟨?_, ?_⟩
        · intro x hx
          rcases List.mem_cons.mp hx with rfl | hx2
          · exact ⟨prod, heq⟩
          · exact hall x hx2
        · rw [ht, List.map_cons, List.sum_cons, hres]
          congr 1
          ring

theorem calcularTotal_ok {pstore : List PlainProduto} {itens : List Item}
    {t : ℚ} (h : NotaFiscalService.calcularTotal pstore itens = .ok t) :
    (∀ it ∈ itens, ∃ prod,
      ProdutoJsonRepository.findById pstore it.productId = .ok (some prod)) ∧
    t = notaSpecTotal pstore itens := by
  obtain ⟨h1, h2⟩ := calcularTotalAux_ok pstore itens 0 t h
  exact ⟨h1, by rw [h2]; unfold notaSpecTotal; rw [zero_add]⟩

theorem calcularTotalAux_err {pstore : List PlainProduto}
    (hwf : WfProdutos pstore) :
    ∀ (itens : List Item) (acc : ℚ),
      (∃ it ∈ itens, offendingItem pstore it) →
      ∃ e, NotaFiscalService.calcularTotalAux pstore acc itens = .error e ∧
        ((∃ pid, e = NotaFiscalService.errProdutoNaoEncontrado pid ∧
            ProdutoJsonRepository.findById pstore pid = .ok none) ∨
         (∃ nome, e = NotaFiscalService.errQtdInvalida nome)) := by
  intro itens
  induction itens with
  | nil =>
    rintro acc ⟨it, hmem, -⟩
    simp at hmem
  | cons item rest ih =>
    rintro acc ⟨it, hmem, hoff⟩
    rcases findById_of_wf hwf item.productId with ⟨prod, hf⟩ | hf
    · by_cases hq : item.qtd ≤ 0
      · refine ⟨NotaFiscalService.errQtdInvalida prod.nome, ?_, Or.inr ⟨prod.nome, rfl⟩⟩
        unfold NotaFiscalService.calcularTotalAux
        rw [hf]
        exact if_pos hq
      · have hrest : ∃ x ∈ rest, offendingItem pstore x := by
          rcases List.mem_cons.mp hmem with rfl | hx2
          · rcases hoff with hnone | hqtd
            · rw [hf] at hnone
              exact absurd hnone (by simp)
            · exact absurd hqtd hq
          · exact ⟨it, hx2, hoff⟩
        obtain ⟨e, he, hshape⟩ := ih (acc + prod.preco * item.qtd) hrest
        refine ⟨e, ?_, hshape⟩
        unfold NotaFiscalService.calcularTotalAux
        rw [hf]
        show (if item.qtd ≤ 0 then
            Except.error (NotaFiscalService.errQtdInvalida prod.nome)
          else NotaFiscalService.calcularTotalAux pstore
            (acc + prod.preco * item.qtd) rest) = Except.error e
        rw [if_neg hq]
        exact he
    · refine ⟨NotaFiscalService.errProdutoNaoEncontrado item.productId, ?_,
        Or.inl ⟨item.productId, rfl, hf⟩⟩
      unfold NotaFiscalService.calcularTotalAux
      rw [hf]

/-! Invoice repository and service characterizations. -/

theorem notaRepoCreate_ok {db : NotasDb} {m : NotaFiscal} {db2 : NotasDb}
    {o : Option NotaFiscal}
    (h : NotaFiscalSqliteRepository.create db m = .ok (db2, o)) :
    (∀ r ∈ db.rows, r.numero ≠ m.numero) ∧
    db2 = ⟨db.rows ++ [NfRow.ofModel (db.seq + 1) m], db.seq + 1⟩ ∧
    NotaFiscalSqliteRepository.findById db2 (db.seq + 1) = .ok o := by
  unfold NotaFiscalSqliteRepository.create at h
  split at h
  next hdup => exact absurd h (fun hc => Except.noConfusion hc)
  next hdup =>
    simp only [] at h
    have hfresh : ∀ r ∈ db.rows, r.numero ≠ m.numero := by
      intro r hr
      have h2 := (List.any_eq_false).mp (Bool.eq_false_iff.mpr hdup) r hr
      simpa using h2
    cases hf : NotaFiscalSqliteRepository.findById
        ⟨db.rows ++ [⟨db.seq + 1, m.numero, m.cliente_nome, m.itens, m.total,
          m.created_at⟩], db.seq + 1⟩ (db.seq + 1) with
    | error e =>
      rw [hf] at h
      exact absurd h (fun hc => Except.noConfusion hc)
    | ok o2 =>
      rw [hf] at h
      injection h with h
      simp only [] at h
      obtain ⟨h1, h2⟩ := Prod.mk.injEq .. |>.mp h
      refine ⟨hfresh, h1.symm, ?_⟩
      rw [← h2, ← h1]
      exact hf

theorem serviceCreate_ok {pstore : List PlainProduto} {db : NotasDb}
    {now : String} {p : NotaPayload} {criada : NotaFiscal} {db2 : NotasDb}
    (h : NotaFiscalService.create pstore db now p = (.ok criada, db2)) :
    ∃ numero cliente itens total model,
      p = ⟨some numero, some cliente, some itens⟩ ∧
      NotaFiscalSqliteRepository.findByNumero db numero = .ok none ∧
      NotaFiscalService.calcularTotal pstore itens = .ok total ∧
      NotaFiscal.make none numero cliente itens total now = .ok model ∧
      (∀ r ∈ db.rows, r.numero ≠ model.numero) ∧
      db2 = ⟨db.rows ++ [NfRow.ofModel (db.seq + 1) model], db.seq + 1⟩ ∧
      NotaFiscalSqliteRepository.findById db2 (db.seq + 1) = .ok (some criada) := by
  obtain ⟨numeroO, clienteO, itensO⟩ := p
  rcases numeroO with _ | numero <;> rcases clienteO with _ | cliente <;>
    rcases itensO with _ | itens
  all_goals try (exact absurd (congrArg Prod.fst h) (fun hc => Except.noConfusion hc))
  simp only [NotaFiscalService.create] at h
  split at h
  next hcond => exact absurd (congrArg Prod.fst h) (fun hc => Except.noConfusion hc)
  next hcond =>
    split at h
    next e heqNum =>
      exact absurd (congrArg Prod.fst h) (fun hc => Except.noConfusion hc)
    next m0 heqNum =>
      exact absurd (congrArg Prod.fst h) (fun hc => Except.noConfusion hc)
    next heqNum =>
      split at h
      next e heqTotal =>
        exact absurd (congrArg Prod.fst h) (fun hc => Except.noConfusion hc)
      next total heqTotal =>
        split at h
        next e heqMake =>
          exact absurd (congrArg Prod.fst h) (fun hc => Except.noConfusion hc)
        next model heqMake =>
          split at h
          next e heqRepo =>
            exact absurd (congrArg Prod.fst h) (fun hc => Except.noConfusion hc)
          next db21 criada1 heqRepo =>
            obtain ⟨h1, h2⟩ := Prod.mk.injEq .. |>.mp h
            injection h1 with h1
            obtain ⟨hfresh, hdb2, hfind⟩ := notaRepoCreate_ok heqRepo
            exact ⟨numero, cliente, itens, total, model, rfl, heqNum,
              heqTotal, heqMake, hfresh, by rw [← h2, hdb2],
              by rw [← h2, ← h1]; exact hfind⟩
          next db21 heqRepo =>
            exact absurd (congrArg Prod.fst h) (fun hc => Except.noConfusion hc)

/-- Every failing path of service create leaves the store unchanged; the
successful path appends exactly one row whose number is fresh. -/
theorem serviceCreate_state (pstore : List PlainProduto) (db : NotasDb)
    (now : String) (p : NotaPayload) :
    (NotaFiscalService.create pstore db now p).2 = db ∨
    ∃ model : NotaFiscal, (∀ r ∈ db.rows, r.numero ≠ model.numero) ∧
      (NotaFiscalService.create pstore db now p).2 =
        ⟨db.rows ++ [NfRow.ofModel (db.seq + 1) model], db.seq + 1⟩ := by
  cases hres : NotaFiscalService.create pstore db now p with
  | mk res db2 =>
    cases res with
    | error e =>
      obtain ⟨numeroO, clienteO, itensO⟩ := p
      rcases numeroO with _ | numero <;> rcases clienteO with _ | cliente <;>
        rcases itensO with _ | itens
      all_goals try
        (left
         have := congrArg Prod.snd hres
         simpa using this.symm)
      simp only [NotaFiscalService.create] at hres
      split at hres
      next hcond => left; exact (Prod.mk.injEq .. |>.mp hres).2.symm
      next hcond =>
        split at hres
        next e2 heqNum => left; exact (Prod.mk.injEq .. |>.mp hres).2.symm
        next m0 heqNum => left; exact (Prod.mk.injEq .. |>.mp hres).2.symm
        next heqNum =>
          split at hres
          next e2 heqTotal => left; exact (Prod.mk.injEq .. |>.mp hres).2.symm
          next total heqTotal =>
            split at hres
            next e2 heqMake => left; exact (Prod.mk.injEq .. |>.mp hres).2.symm
            next model heqMake =>
              split at hres
              next e2 heqRepo =>
                left; exact (Prod.mk.injEq .. |>.mp hres).2.symm
              next db21 criada1 heqRepo =>
                exact absurd (Prod.mk.injEq .. |>.mp hres).1
                  (fun hc => Except.noConfusion hc)
              next db21 heqRepo =>
                right
                obtain ⟨hfresh, hdb2, -⟩ := notaRepoCreate_ok heqRepo
                refine ⟨model, hfresh, ?_⟩
                rw [(Prod.mk.injEq .. |>.mp hres).2.symm, hdb2]
    | ok criada =>
      right
      obtain ⟨n, c, i, t, model, -, -, -, -, hfresh, hdb2, -⟩ :=
        serviceCreate_ok hres
      exact ⟨model, hfresh, hdb2⟩

theorem notaRepoUpdate_ok {db : NotasDb} {id : Int} {m : NotaFiscal}
    {db2 : NotasDb} {o : Option NotaFiscal}
    (h : NotaFiscalSqliteRepository.update db id m = .ok (db2, o)) :
    ((∀ r ∈ db.rows, r.id ≠ id) ∨
      (∀ r ∈ db.rows, r.id = id ∨ r.numero ≠ m.numero)) ∧
    db2 = ⟨db.rows.map (NotaFiscalSqliteRepository.updRow id m), db.seq⟩ ∧
    NotaFiscalSqliteRepository.findById db2 id = .ok o := by
  unfold NotaFiscalSqliteRepository.update at h
  split at h
  next hid => exact absurd h (fun hc => Except.noConfusion hc)
  next hid =>
    split at h
    next hguard => exact absurd h (fun hc => Except.noConfusion hc)
    next hguard =>
      have hg2 : (∀ r ∈ db.rows, r.id ≠ id) ∨
          (∀ r ∈ db.rows, r.id = id ∨ r.numero ≠ m.numero) := by
        by_cases hA : db.rows.any (fun r => r.id == id) = true
        · right
          intro r hr
          by_cases hrid : r.id = id
          · exact Or.inl hrid
          · refine Or.inr fun hnm => ?_
            apply hguard
            rw [Bool.and_eq_true]
            refine ⟨hA, ?_⟩
            rw [List.any_eq_true]
            exact ⟨r, hr, by simp [hrid, hnm]⟩
        · left
          intro r hr hrid
          apply hA
          rw [List.any_eq_true]
          exact ⟨r, hr, by simp [hrid]⟩
      cases hf : NotaFiscalSqliteRepository.findById
          ⟨db.rows.map (NotaFiscalSqliteRepository.updRow id m), db.seq⟩ id with
      | error e =>
        rw [hf] at h
        exact absurd h (fun hc => Except.noConfusion hc)
      | ok o2 =>
        rw [hf] at h
        injection h with h
        simp only [] at h
        obtain ⟨h1, h2⟩ := Prod.mk.injEq .. |>.mp h
        refine ⟨hg2, h1.symm, ?_⟩
        rw [← h2, ← h1]
        exact hf

theorem serviceUpdate_ok {pstore : List PlainProduto} {db : NotasDb}
    {id : Int} {p : NotaPayload} {atualizada : NotaFiscal} {db2 : NotasDb}
    (h : NotaFiscalService.update pstore db id p = (.ok atualizada, db2)) :
    ∃ atual total model,
      NotaFiscalSqliteRepository.findById db id = .ok (some atual) ∧
      NotaFiscalService.calcularTotal pstore (p.itens.getD atual.itens) =
        .ok total ∧
      NotaFiscal.make (some id) (p.numero.getD atual.numero)
        (p.cliente_nome.getD atual.cliente_nome) (p.itens.getD atual.itens)
        total atual.created_at = .ok model ∧
      ((∀ r ∈ db.rows, r.id ≠ id) ∨
        (∀ r ∈ db.rows, r.id = id ∨ r.numero ≠ model.numero)) ∧
      db2 = ⟨db.rows.map (NotaFiscalSqliteRepository.updRow id model),
        db.seq⟩ ∧
      NotaFiscalSqliteRepository.findById db2 id = .ok (some atualizada) := by
  unfold NotaFiscalService.update at h
  split at h
  next e heqFind =>
    exact absurd (congrArg Prod.fst h) (fun hc => Except.noConfusion hc)
  next heqFind =>
    exact absurd (congrArg Prod.fst h) (fun hc => Except.noConfusion hc)
  next atual heqFind =>
    simp only [] at h
    split at h
    next e heqDup =>
      exact absurd (congrArg Prod.fst h) (fun hc => Except.noConfusion hc)
    next heqDup =>
      split at h
      next e heqTotal =>
        exact absurd (congrArg Prod.fst h) (fun hc => Except.noConfusion hc)
      next total heqTotal =>
        split at h
        next e heqMake =>
          exact absurd (congrArg Prod.fst h) (fun hc => Except.noConfusion hc)
        next model heqMake =>
          split at h
          next e heqRepo =>
            exact absurd (congrArg Prod.fst h) (fun hc => Except.noConfusion hc)
          next db21 at1 heqRepo =>
            obtain ⟨h1, h2⟩ := Prod.mk.injEq .. |>.mp h
            injection h1 with h1
            obtain ⟨hg, hdb2, hfind⟩ := notaRepoUpdate_ok heqRepo
            exact ⟨atual, total, model, heqFind, heqTotal, heqMake, hg,
              by rw [← h2, hdb2], by rw [← h2, ← h1]; exact hfind⟩
          next db21 heqRepo =>
            exact absurd (congrArg Prod.fst h) (fun hc => Except.noConfusion hc)

/-- Every failing path of service update leaves the store unchanged; a
successful repository write maps exactly the addressed row. -/
theorem serviceUpdate_state (pstore : List PlainProduto) (db : NotasDb)
    (id : Int) (p : NotaPayload) :
    (NotaFiscalService.update pstore db id p).2 = db ∨
    ∃ model : NotaFiscal,
      ((∀ r ∈ db.rows, r.id ≠ id) ∨
        (∀ r ∈ db.rows, r.id = id ∨ r.numero ≠ model.numero)) ∧
      (NotaFiscalService.update pstore db id p).2 =
        ⟨db.rows.map (NotaFiscalSqliteRepository.updRow id model), db.seq⟩ := by
  simp only [NotaFiscalService.update]
  split
  next e heqFind => exact Or.inl rfl
  next heqFind => exact Or.inl rfl
  next atual heqFind =>
    split
    next e heqDup => exact Or.inl rfl
    next heqDup =>
      split
      next e heqTotal => exact Or.inl rfl
      next total heqTotal =>
        split
        next e heqMake => exact Or.inl rfl
        next model heqMake =>
          split
          next e heqRepo => exact Or.inl rfl
          next db21 at1 heqRepo =>
            obtain ⟨hg, hdb2, -⟩ := notaRepoUpdate_ok heqRepo
            exact Or.inr ⟨model, hg, hdb2⟩
          next db21 heqRepo =>
            obtain ⟨hg, hdb2, -⟩ := notaRepoUpdate_ok heqRepo
            exact Or.inr ⟨model, hg, hdb2⟩

theorem uniqueNumeros_map_upd {rows : List NfRow} {id : Int} {m : NotaFiscal}
    (hids : rows.Pairwise (fun a b => a.id ≠ b.id))
    (hnum : rows.Pairwise (fun a b => a.numero ≠ b.numero))
    (hguard : (∀ r ∈ rows, r.id ≠ id) ∨
      (∀ r ∈ rows, r.id = id ∨ r.numero ≠ m.numero)) :
    (rows.map (NotaFiscalSqliteRepository.updRow id m)).Pairwise
      (fun a b => a.numero ≠ b.numero) := by
  rw [List.pairwise_map]
  rcases hguard with hno | hfr
  · refine List.Pairwise.imp_of_mem ?_ hnum
    intro a b ha hb hab
    unfold NotaFiscalSqliteRepository.updRow
    rw [if_neg (by simpa using hno a ha), if_neg (by simpa using hno b hb)]
    exact hab
  · refine List.Pairwise.imp_of_mem ?_ (hids.and hnum)
    rintro a b ha hb ⟨hid, hnm⟩
    unfold NotaFiscalSqliteRepository.updRow
    by_cases ha1 : (a.id == id) = true
    · rw [if_pos ha1]
      have haid : a.id = id := by simpa using ha1
      have hb1 : ¬(b.id == id) = true := by
        simp only [beq_iff_eq]
        intro hbid
        exact hid (by rw [haid, hbid])
      rw [if_neg hb1]
      rcases hfr b hb with hbid | hbnm
      · exact absurd hbid (by simpa using hb1)
      · exact fun hcontra => hbnm hcontra.symm
    · rw [if_neg ha1]
      by_cases hb1 : (b.id == id) = true
      · rw [if_pos hb1]
        rcases hfr a ha with haid | hanm
        · exact absurd haid (by simpa using ha1)
        · exact hanm
      · rw [if_neg hb1]
        exact hnm

theorem findByNumero_some {db : NotasDb} {numero : String}
    (hwf : WfNotas db) (r0 : NfRow) (hr0 : r0 ∈ db.rows)
    (hnum : r0.numero = numero) :
    ∃ m, NotaFiscalSqliteRepository.findByNumero db numero = .ok (some m) := by
  unfold NotaFiscalSqliteRepository.findByNumero
  cases hf : db.rows.find? (fun r => r.numero == numero) with
  | none =>
    exact absurd (List.find?_eq_none.mp hf r0 hr0) (by simp [hnum])
  | some r =>
    obtain ⟨m, hm⟩ := hwf r (List.mem_of_find?_eq_some hf)
    refine ⟨m, ?_⟩
    show Except.map some (NotaFiscalSqliteRepository.fromDbRow r) =
      .ok (some m)
    rw [hm]
    rfl

theorem createDup_fails {pstore : List PlainProduto} {db : NotasDb}
    {now numero cliente : String} {itens : List Item}
    (hwf : WfNotas db) (r0 : NfRow) (hr0 : r0 ∈ db.rows)
    (hnum : r0.numero = numero) (hne : numero ≠ "") (hce : cliente ≠ "") :
    NotaFiscalService.create pstore db now
      ⟨some numero, some cliente, some itens⟩ =
      (.error "Número de nota já existente", db) := by
  obtain ⟨m, hm⟩ := findByNumero_some hwf r0 hr0 hnum
  simp only [NotaFiscalService.create]
  rw [if_neg (by simp [hne, hce])]
  rw [hm]

theorem updateDup_fails {pstore : List PlainProduto} {db : NotasDb}
    {id : Int} {p : NotaPayload} {n : String} {atual : NotaFiscal}
    (hwf : WfNotas db)
    (hfind : NotaFiscalSqliteRepository.findById db id = .ok (some atual))
    (hp : p.numero = some n) (hne : n ≠ "") (hneq : n ≠ atual.numero)
    (r0 : NfRow) (hr0 : r0 ∈ db.rows) (hnum : r0.numero = n) :
    NotaFiscalService.update pstore db id p =
      (.error "Número de nota já existente", db) := by
  obtain ⟨m, hm⟩ := findByNumero_some hwf r0 hr0 hnum
  simp only [NotaFiscalService.update]
  rw [hfind]
  simp only [hp]
  have h1 : (n == "") = false := by simp [hne]
  have h2 : (n == atual.numero) = false := by simp [hneq]
  rw [h1, h2]
  simp only [Bool.not_false, Bool.and_self, if_true, Option.getD_some]
  rw [hm]

theorem uniqueNumeros_create (pstore : List PlainProduto) (db : NotasDb)
    (now : String) (p : NotaPayload) (h : uniqueNumeros db) :
    uniqueNumeros (NotaFiscalService.create pstore db now p).2 := by
  rcases serviceCreate_state pstore db now p with heq | ⟨model, hfresh, heq⟩
  · rw [heq]
    exact h
  · rw [heq]
    unfold uniqueNumeros at h ⊢
    simp only []
    rw [List.pairwise_append]
    refine ⟨h, by simp, ?_⟩
    intro a ha b hb
    simp only [List.mem_singleton] at hb
    subst hb
    exact hfresh a ha

theorem uniqueNumeros_update (pstore : List PlainProduto) (db : NotasDb)
    (id : Int) (p : NotaPayload) (hids : uniqueNotaIds db)
    (h : uniqueNumeros db) :
    uniqueNumeros (NotaFiscalService.update pstore db id p).2 := by
  rcases serviceUpdate_state pstore db id p with heq | ⟨model, hguard, heq⟩
  · rw [heq]
    exact h
  · rw [heq]
    exact uniqueNumeros_map_upd hids h hguard

theorem uniqueNumeros_remove (db : NotasDb) (id : Int)
    (h : uniqueNumeros db) :
    uniqueNumeros (NotaFiscalService.remove db id).2 := by
  simp only [NotaFiscalService.remove, NotaFiscalSqliteRepository.delete]
  split <;> exact List.Pairwise.sublist (List.filter_sublist _) h

/-- C3: invoice numbers stay pairwise distinct: create, update and remove
preserve uniqueness (update under primary-key uniqueness of ids);
creating with an existing number fails with the duplicate error and
leaves the store unchanged, and an update renaming an invoice to a number
held by another stored row fails the same way with the store unchanged. -/
theorem claim_C3_numero_uniqueness :
    (∀ pstore db now p, uniqueNumeros db →
      uniqueNumeros (NotaFiscalService.create pstore db now p).2) ∧
    (∀ pstore db id p, uniqueNotaIds db → uniqueNumeros db →
      uniqueNumeros (NotaFiscalService.update pstore db id p).2) ∧
    (∀ db id, uniqueNumeros db →
      uniqueNumeros (NotaFiscalService.remove db id).2) ∧
    (∀ pstore db now numero cliente itens r0, WfNotas db → r0 ∈ db.rows →
      r0.numero = numero → numero ≠ "" → cliente ≠ "" →
      NotaFiscalService.create pstore db now
        ⟨some numero, some cliente, some itens⟩ =
        (.error "Número de nota já existente", db)) ∧
    (∀ pstore db id p n atual r0, WfNotas db →
      NotaFiscalSqliteRepository.findById db id = .ok (some atual) →
      p.numero = some n → n ≠ "" → n ≠ atual.numero → r0 ∈ db.rows →
      r0.numero = n →
      NotaFiscalService.update pstore db id p =
        (.error "Número de nota já existente", db)) :=
  ⟨uniqueNumeros_create,
   uniqueNumeros_update,
   uniqueNumeros_remove,
   fun _ _ _ _ _ _ r0 hwf hr0 hnum hne hce =>
     createDup_fails hwf r0 hr0 hnum hne hce,
   fun _ _ _ _ _ _ r0 hwf hfind hp hne hneq hr0 hnum =>
     updateDup_fails hwf hfind hp hne hneq r0 hr0 hnum⟩

unseal Rat.add Rat.mul Rat.sub Rat.inv in
/-- C3 witness: a second invoice with the stored number NF-1 is rejected
with the duplicate error and the store is returned unchanged. -/
theorem claim_C3_numero_uniqueness_witness :
    (WfNotas ⟨[⟨1, "NF-1", "Alice", [⟨1, 2⟩], 7, "T"⟩], 1⟩ ∧
      (⟨1, "NF-1", "Alice", [⟨1, 2⟩], 7, "T"⟩ : NfRow) ∈
        (⟨[⟨1, "NF-1", "Alice", [⟨1, 2⟩], 7, "T"⟩], 1⟩ : NotasDb).rows) ∧
    NotaFiscalService.create [] ⟨[⟨1, "NF-1", "Alice", [⟨1, 2⟩], 7, "T"⟩], 1⟩
      "T2" ⟨some "NF-1", some "Bob", some []⟩ =
      (.error "Número de nota já existente",
        ⟨[⟨1, "NF-1", "Alice", [⟨1, 2⟩], 7, "T"⟩], 1⟩) := by
  have hwf : WfNotas ⟨[⟨1, "NF-1", "Alice", [⟨1, 2⟩], 7, "T"⟩], 1⟩ := by
    intro r hr
    simp only [List.mem_singleton] at hr
    subst hr
    exact ⟨⟨some 1, "NF-1", "Alice", [⟨1, 2⟩], 7, "T"⟩, by decide⟩
  exact ⟨⟨hwf, by decide⟩,
    claim_C3_numero_uniqueness.2.2.2.1 [] _ "T2" "NF-1" "Bob" []
      ⟨1, "NF-1", "Alice", [⟨1, 2⟩], 7, "T"⟩ hwf
      (by decide) rfl (by decide) (by decide)⟩

/-! Result characterizations for create and update (claims C1, C2, C9). -/

theorem updRow_id (id : Int) (m : NotaFiscal) (r : NfRow) :
    (NotaFiscalSqliteRepository.updRow id m r).id = r.id := by
  unfold NotaFiscalSqliteRepository.updRow
  split <;> rfl

theorem updRow_created_at (id : Int) (m : NotaFiscal) (r : NfRow) :
    (NotaFiscalSqliteRepository.updRow id m r).created_at = r.created_at := by
  unfold NotaFiscalSqliteRepository.updRow
  split <;> rfl

theorem findById_elim {db : NotasDb} {id : Int} {atual : NotaFiscal}
    (h : NotaFiscalSqliteRepository.findById db id = .ok (some atual)) :
    ∃ row, db.rows.find? (fun r => r.id == id) = some row ∧
      NotaFiscalSqliteRepository.fromDbRow row = .ok atual := by
  unfold NotaFiscalSqliteRepository.findById at h
  split at h
  next hf => exact absurd h (by simp)
  next row hf =>
    cases hp : NotaFiscalSqliteRepository.fromDbRow row with
    | error e =>
      rw [hp] at h
      exact absurd h (by simp [Except.map])
    | ok m =>
      rw [hp] at h
      have hma : m = atual := by simpa [Except.map] using h
      exact ⟨row, hf, by rw [hp, hma]⟩

theorem findById_append_new {db : NotasDb} {model m2 : NotaFiscal}
    (hseq : ∀ r ∈ db.rows, r.id ≠ db.seq + 1)
    (hparse : NotaFiscalSqliteRepository.fromDbRow
      (NfRow.ofModel (db.seq + 1) model) = .ok m2) :
    NotaFiscalSqliteRepository.findById
      ⟨db.rows ++ [NfRow.ofModel (db.seq + 1) model], db.seq + 1⟩
      (db.seq + 1) = .ok (some m2) := by
  unfold NotaFiscalSqliteRepository.findById
  have hnone : db.rows.find? (fun r => r.id == db.seq + 1) = none :=
    List.find?_eq_none.mpr (fun r hr => by simpa using hseq r hr)
  have hone : ([NfRow.ofModel (db.seq + 1) model]).find?
      (fun r => r.id == db.seq + 1) = some (NfRow.ofModel (db.seq + 1) model) := by
    simp [List.find?, NfRow.ofModel]
  simp only []
  rw [List.find?_append, hnone, Option.none_or, hone]
  show Except.map some (NotaFiscalSqliteRepository.fromDbRow
    (NfRow.ofModel (db.seq + 1) model)) = .ok (some m2)
  rw [hparse]
  rfl

/-- The full shape of a successful service update: the returned model
carries the fields of the freshly validated model and the created_at of
the stored row. -/
theorem serviceUpdate_result {pstore : List PlainProduto} {db : NotasDb}
    {id : Int} {p : NotaPayload} {atualizada : NotaFiscal} {db2 : NotasDb}
    (h : NotaFiscalService.update pstore db id p = (.ok atualizada, db2)) :
    ∃ atual total model row,
      NotaFiscalSqliteRepository.findById db id = .ok (some atual) ∧
      db.rows.find? (fun r => r.id == id) = some row ∧
      NotaFiscalService.calcularTotal pstore (p.itens.getD atual.itens) =
        .ok total ∧
      model.total = round2 total ∧
      atualizada = ⟨some row.id, model.numero, model.cliente_nome,
        model.itens, model.total, row.created_at⟩ ∧
      atual.created_at = row.created_at ∧
      db2 = ⟨db.rows.map (NotaFiscalSqliteRepository.updRow id model),
        db.seq⟩ := by
  obtain ⟨atual, total, model, hfind, hcalc, hmake, hguard, hdb2, hfind2⟩ :=
    serviceUpdate_ok h
  obtain ⟨row, hrow, hparse⟩ := findById_elim hfind
  obtain ⟨-, -, -, -, hmodel⟩ := (notaMake_ok_iff _ _ _ _ _ _ _).mp hmake
  obtain ⟨-, -, -, -, hatual⟩ := (notaMake_ok_iff _ _ _ _ _ _ _).mp hparse
  have hpredrow := List.find?_some hrow
  have hupd : NotaFiscalSqliteRepository.updRow id model row =
      ⟨row.id, model.numero, model.cliente_nome, model.itens, model.total,
        row.created_at⟩ := by
    unfold NotaFiscalSqliteRepository.updRow
    rw [if_pos hpredrow]
  have hparse2 := notaMake_roundtrip hmake (some row.id) row.created_at
  have hfcomp : NotaFiscalSqliteRepository.findById db2 id =
      .ok (some ⟨some row.id, model.numero, model.cliente_nome, model.itens,
        model.total, row.created_at⟩) := by
    rw [hdb2]
    unfold NotaFiscalSqliteRepository.findById
    simp only []
    rw [List.find?_map]
    have hcomp : ((fun r => r.id == id) ∘
        NotaFiscalSqliteRepository.updRow id model) =
        (fun (r : NfRow) => r.id == id) := by
      funext r
      simp [Function.comp, updRow_id]
    rw [hcomp, hrow, Option.map_some']
    show Except.map some (NotaFiscalSqliteRepository.fromDbRow
      (NotaFiscalSqliteRepository.updRow id model row)) = _
    rw [hupd]
    show Except.map some (NotaFiscal.make (some row.id) model.numero
      model.cliente_nome model.itens model.total row.created_at) = _
    rw [hparse2]
    rfl
  have hatlzd : atualizada = ⟨some row.id, model.numero, model.cliente_nome,
      model.itens, model.total, row.created_at⟩ := by
    rw [hfind2] at hfcomp
    simpa using hfcomp
  refine ⟨atual, total, model, row, hfind, hrow, hcalc, ?_, hatlzd, ?_, hdb2⟩
  · rw [hmodel]
  · rw [hatual]

/-- C9: a successful invoice update returns and persists the created_at
stamped at the original creation: the returned model carries the stored
row's created_at, the sequence counter is unchanged, and the UPDATE maps
every row id- and created_at-preservingly. -/
theorem claim_C9_created_at_preserved {pstore : List PlainProduto}
    {db : NotasDb} {id : Int} {p : NotaPayload} {atualizada : NotaFiscal}
    {db2 : NotasDb} {atual : NotaFiscal}
    (h : NotaFiscalService.update pstore db id p = (.ok atualizada, db2))
    (hat : NotaFiscalSqliteRepository.findById db id = .ok (some atual)) :
    atualizada.created_at = atual.created_at ∧
    db2.seq = db.seq ∧
    ∃ g : NfRow → NfRow, db2.rows = db.rows.map g ∧
      ∀ r, (g r).id = r.id ∧ (g r).created_at = r.created_at := by
  obtain ⟨atual2, total, model, row, hfind, hrow, hcalc, hmt, hatlzd, hcreat,
    hdb2⟩ := serviceUpdate_result h
  have haa : atual2 = atual := by
    rw [hat] at hfind
    simpa using hfind.symm
  refine ⟨?_, by rw [hdb2],
    ⟨NotaFiscalSqliteRepository.updRow id model, by rw [hdb2],
      fun r => ⟨updRow_id id model r, updRow_created_at id model r⟩⟩⟩
  rw [hatlzd]
  show row.created_at = atual.created_at
  rw [← haa, hcreat]

unseal Rat.add Rat.mul Rat.sub Rat.inv in
/-- C9 witness: updating the stored invoice NF-1 with new items keeps the
original created_at T on the returned and persisted record. -/
theorem claim_C9_created_at_preserved_witness :
    NotaFiscalService.update [⟨1, "Pen", 7 / 2⟩]
        ⟨[⟨1, "NF-1", "Alice", [⟨1, 2⟩], 7, "T"⟩], 1⟩ 1
        ⟨none, none, some [⟨1, 4⟩]⟩ =
      (.ok ⟨some 1, "NF-1", "Alice", [⟨1, 4⟩], 14, "T"⟩,
        ⟨[⟨1, "NF-1", "Alice", [⟨1, 4⟩], 14, "T"⟩], 1⟩) ∧
    (⟨some 1, "NF-1", "Alice", [⟨1, 4⟩], 14, "T"⟩ : NotaFiscal).created_at =
      (⟨some 1, "NF-1", "Alice", [⟨1, 2⟩], 7, "T"⟩ : NotaFiscal).created_at := by
  have h : NotaFiscalService.update [⟨1, "Pen", 7 / 2⟩]
      ⟨[⟨1, "NF-1", "Alice", [⟨1, 2⟩], 7, "T"⟩], 1⟩ 1
      ⟨none, none, some [⟨1, 4⟩]⟩ =
      (.ok ⟨some 1, "NF-1", "Alice", [⟨1, 4⟩], 14, "T"⟩,
        ⟨[⟨1, "NF-1", "Alice", [⟨1, 4⟩], 14, "T"⟩], 1⟩) := by decide
  have hat : NotaFiscalSqliteRepository.findById
      ⟨[⟨1, "NF-1", "Alice", [⟨1, 2⟩], 7, "T"⟩], 1⟩ 1 =
      .ok (some ⟨some 1, "NF-1", "Alice", [⟨1, 2⟩], 7, "T"⟩) := by decide
  exact ⟨h, (claim_C9_created_at_preserved h hat).1⟩

theorem round2_notaSpecTotal (pstore : List PlainProduto)
    (itens : List Item) :
    round2 (notaSpecTotal pstore itens) = notaSpecTotal pstore itens := by
  unfold notaSpecTotal
  rw [round2_idem]

/-- C1: on every successful create, the returned and persisted total is
the spec formula, round2 of the sum over the supplied line items of the
price resolved at call time by the product repository times the quantity,
and the store grows by exactly that one row stamped with the current
instant; re-reading the invoice from the new invoice store returns the
same model, and invoice reads take no product store at all, so later
product-price updates cannot alter the stored total, while this same
statement applied at the updated product store shows that a new invoice
referencing the same product picks up the new price.  On every successful
update the persisted total is recomputed by the same formula from the
items supplied in the request (or the stored ones when absent). -/
theorem claim_C1_total_frozen :
    (∀ pstore db now p criada db2, (∀ r ∈ db.rows, r.id ≠ db.seq + 1) →
      NotaFiscalService.create pstore db now p = (.ok criada, db2) →
      ∃ itens, p.itens = some itens ∧
        (∀ it ∈ itens, ∃ prod,
          ProdutoJsonRepository.findById pstore it.productId =
            .ok (some prod)) ∧
        criada.total = notaSpecTotal pstore itens ∧
        (∃ row, db2.rows = db.rows ++ [row] ∧ row.id = db.seq + 1 ∧
          row.total = notaSpecTotal pstore itens ∧ row.created_at = now) ∧
        NotaFiscalSqliteRepository.findById db2 (db.seq + 1) =
          .ok (some criada)) ∧
    (∀ pstore db id p atualizada db2,
      NotaFiscalService.update pstore db id p = (.ok atualizada, db2) →
      ∃ atual, NotaFiscalSqliteRepository.findById db id = .ok (some atual) ∧
        (∀ it ∈ p.itens.getD atual.itens, ∃ prod,
          ProdutoJsonRepository.findById pstore it.productId =
            .ok (some prod)) ∧
        atualizada.total = notaSpecTotal pstore (p.itens.getD atual.itens)) := by
  constructor
  · intro pstore db now p criada db2 hseq h
    obtain ⟨numero, cliente, itens, total, model, hpeq, hnumFind, hcalc,
      hmake, hfresh, hdb2, hfind⟩ := serviceCreate_ok h
    obtain ⟨hresolve, htot⟩ := calcularTotal_ok hcalc
    obtain ⟨-, -, -, -, hmodel⟩ := (notaMake_ok_iff _ _ _ _ _ _ _).mp hmake
    have hparse := notaMake_roundtrip hmake (some (db.seq + 1))
      model.created_at
    have hfind2 : NotaFiscalSqliteRepository.findById db2 (db.seq + 1) =
        .ok (some ⟨some (db.seq + 1), model.numero, model.cliente_nome,
          model.itens, model.total, model.created_at⟩) := by
      rw [hdb2]
      exact findById_append_new hseq hparse
    have hcriada : criada = ⟨some (db.seq + 1), model.numero,
        model.cliente_nome, model.itens, model.total, model.created_at⟩ := by
      rw [hfind] at hfind2
      simpa using hfind2
    refine ⟨itens, by rw [hpeq], hresolve, ?_, ?_, hfind⟩
    · rw [hcriada]
      show model.total = _
      rw [hmodel]
      show round2 total = _
      rw [htot, round2_notaSpecTotal]
    · refine ⟨NfRow.ofModel (db.seq + 1) model, by rw [hdb2], rfl, ?_, ?_⟩
      · show model.total = _
        rw [hmodel]
        show round2 total = _
        rw [htot, round2_notaSpecTotal]
      · show model.created_at = now
        rw [hmodel]
  · intro pstore db id p atualizada db2 h
    obtain ⟨atual, total, model, row, hfind, hrow, hcalc, hmt, hatlzd,
      hcreat, hdb2⟩ := serviceUpdate_result h
    obtain ⟨hresolve, htot⟩ := calcularTotal_ok hcalc
    refine ⟨atual, hfind, hresolve, ?_⟩
    rw [hatlzd]
    show model.total = _
    rw [hmt, htot, round2_notaSpecTotal]

unseal Rat.add Rat.mul Rat.sub Rat.inv in
/-- C1 witness: creating NF-1 for two Pens at price 3.50 against an empty
invoice store persists total 7 and the conclusions of the claim hold at
those inputs. -/
theorem claim_C1_total_frozen_witness :
    ∃ itens, (⟨some "NF-1", some "Alice", some [⟨1, 2⟩]⟩ : NotaPayload).itens
        = some itens ∧
      (∀ it ∈ itens, ∃ prod, ProdutoJsonRepository.findById
        [⟨1, "Pen", 7 / 2⟩] it.productId = .ok (some prod)) ∧
      (⟨some 1, "NF-1", "Alice", [⟨1, 2⟩], 7, "T"⟩ : NotaFiscal).total =
        notaSpecTotal [⟨1, "Pen", 7 / 2⟩] itens ∧
      (∃ row, (⟨[⟨1, "NF-1", "Alice", [⟨1, 2⟩], 7, "T"⟩], 1⟩ : NotasDb).rows
          = (⟨[], 0⟩ : NotasDb).rows ++ [row] ∧
        row.id = (⟨[], 0⟩ : NotasDb).seq + 1 ∧
        row.total = notaSpecTotal [⟨1, "Pen", 7 / 2⟩] itens ∧
        row.created_at = "T") ∧
      NotaFiscalSqliteRepository.findById
        ⟨[⟨1, "NF-1", "Alice", [⟨1, 2⟩], 7, "T"⟩], 1⟩
        ((⟨[], 0⟩ : NotasDb).seq + 1) =
        .ok (some ⟨some 1, "NF-1", "Alice", [⟨1, 2⟩], 7, "T"⟩) :=
  claim_C1_total_frozen.1 [⟨1, "Pen", 7 / 2⟩] ⟨[], 0⟩ "T"
    ⟨some "NF-1", some "Alice", some [⟨1, 2⟩]⟩
    ⟨some 1, "NF-1", "Alice", [⟨1, 2⟩], 7, "T"⟩
    ⟨[⟨1, "NF-1", "Alice", [⟨1, 2⟩], 7, "T"⟩], 1⟩ (by simp) (by decide)

/-- C2: if the product store is well formed and some supplied line item
has an unresolvable productId or a nonpositive quantity, then (with the
basic fields valid and the number fresh) the whole creation fails with an
error naming the offending product or item and the invoice store is
returned unchanged; conversely a successful create admits no offending
item among the supplied ones. -/
theorem claim_C2_offending_item_rejects :
    (∀ pstore db (now numero cliente : String) (itens : List Item),
      WfProdutos pstore →
      (∃ it ∈ itens, offendingItem pstore it) →
      NotaFiscalSqliteRepository.findByNumero db numero = .ok none →
      numero ≠ "" → cliente ≠ "" →
      ∃ e, NotaFiscalService.create pstore db now
          ⟨some numero, some cliente, some itens⟩ = (.error e, db) ∧
        ((∃ pid, e = NotaFiscalService.errProdutoNaoEncontrado pid ∧
            ProdutoJsonRepository.findById pstore pid = .ok none) ∨
         (∃ nome, e = NotaFiscalService.errQtdInvalida nome))) ∧
    (∀ pstore db now p criada db2,
      NotaFiscalService.create pstore db now p = (.ok criada, db2) →
      ∀ itens, p.itens = some itens →
        ∀ it ∈ itens, ¬ offendingItem pstore it) := by
  constructor
  · intro pstore db now numero cliente itens hwf hoff hnum hne hce
    obtain ⟨e, he, hshape⟩ := calcularTotalAux_err hwf itens 0 hoff
    have he2 : NotaFiscalService.calcularTotal pstore itens = .error e := he
    refine ⟨e, ?_, hshape⟩
    simp only [NotaFiscalService.create]
    rw [if_neg (by simp [hne, hce]), hnum, he2]
  · intro pstore db now p criada db2 h itens hit it hmem hoff
    obtain ⟨numero, cliente, itens0, total, model, hpeq, hnumFind, hcalc,
      hmake, -, -, -⟩ := serviceCreate_ok h
    have hii : itens = itens0 := by
      rw [hpeq] at hit
      simpa using hit.symm
    subst hii
    obtain ⟨hresolve, -⟩ := calcularTotal_ok hcalc
    obtain ⟨-, -, hvalid, -, -⟩ := (notaMake_ok_iff _ _ _ _ _ _ _).mp hmake
    rcases hoff with hnone | hqtd
    · obtain ⟨prod, hp⟩ := hresolve it hmem
      rw [hp] at hnone
      exact absurd hnone (by simp)
    · exact absurd (hvalid it hmem).2 (by simpa using hqtd)

unseal Rat.add Rat.mul Rat.sub Rat.inv in
/-- C2 witness: creating an invoice whose single line item references the
absent product 999 fails naming product 999 and leaves the empty invoice
store unchanged. -/
theorem claim_C2_offending_item_rejects_witness :
    ∃ e, NotaFiscalService.create [⟨1, "Pen", 7 / 2⟩] ⟨[], 0⟩ "T"
        ⟨some "NF-9", some "Alice", some [⟨999, 1⟩]⟩ =
        (.error e, ⟨[], 0⟩) ∧
      ((∃ pid, e = NotaFiscalService.errProdutoNaoEncontrado pid ∧
          ProdutoJsonRepository.findById [⟨1, "Pen", 7 / 2⟩] pid =
            .ok none) ∨
       (∃ nome, e = NotaFiscalService.errQtdInvalida nome)) := by
  have hwf : WfProdutos [⟨1, "Pen", 7 / 2⟩] := by
    intro r hr
    simp only [List.mem_singleton] at hr
    subst hr
    exact ⟨⟨some 1, "Pen", 7 / 2⟩, by decide⟩
  exact claim_C2_offending_item_rejects.1 [⟨1, "Pen", 7 / 2⟩] ⟨[], 0⟩ "T"
    "NF-9" "Alice" [⟨999, 1⟩] hwf
    ⟨⟨999, 1⟩, by decide, Or.inl (by decide)⟩ (by decide) (by decide)
    (by decide)

/-! Deletion semantics (claims C4 and C10). -/

theorem notaDelete_true_iff (db : NotasDb) (id : Int) :
    (NotaFiscalSqliteRepository.delete db id).2 = true ↔
      ∃ r ∈ db.rows, r.id = id := by
  unfold NotaFiscalSqliteRepository.delete
  simp only [decide_eq_true_eq, List.length_filter_lt_length_iff_exists,
    bne_iff_ne, ne_eq, not_not]

theorem produtoDelete_true_iff (lista : List PlainProduto) (id : Int) :
    (ProdutoJsonRepository.delete lista id).2 = true ↔
      ∃ p ∈ lista, p.id = id := by
  unfold ProdutoJsonRepository.delete
  have hle := List.length_filter_le (fun p => p.id != id) lista
  have hiff := List.length_filter_lt_length_iff_exists
    (l := lista) (p := fun p => p.id != id)
  simp only [bne_iff_ne, ne_eq, not_not] at hiff
  simp only [ProdutoJsonRepository.delete]
  split
  · simp only [true_iff]
    rw [← hiff]
    omega
  · simp only [Bool.false_eq_true, false_iff]
    rw [← hiff]
    omega

/-- C4 (amended): for the invoice SQLite repository and the product JSON
repository, delete(id) returns true iff a record with that id existed and
was removed; the MySQL user repository instead returns true
unconditionally, also for ids with no stored record. -/
theorem claim_C4_delete_true_iff_existed :
    (∀ db id, (NotaFiscalSqliteRepository.delete db id).2 = true ↔
      ∃ r ∈ db.rows, r.id = id) ∧
    (∀ lista id, (ProdutoJsonRepository.delete lista id).2 = true ↔
      ∃ p ∈ lista, p.id = id) ∧
    (∀ db id, (UsuarioMySqlRepository.delete db id).2 = true) :=
  ⟨notaDelete_true_iff, produtoDelete_true_iff, fun _ _ => rfl⟩

/-- C4 counterexample: deleting id 1 from an empty MySQL user store
returns true although no record with that id existed, so delete does not
return true iff a record existed for every repository of the system. -/
theorem claim_C4_counterexample :
    ¬ (∀ (db : UsersDb) (id : Int),
        (UsuarioMySqlRepository.delete db id).2 = true ↔
          ∃ r ∈ db.rows, r.id = id) := by
  intro h
  have h2 := (h ⟨[], 0⟩ 1).mp rfl
  simp at h2

/-- C10: UsuarioService.remove reports success for every id, with either
backing repository, and the MySQL user delete returns true
unconditionally, while invoice and product removal raise a not-found
error when the id is absent. -/
theorem claim_C10_user_remove_always_true :
    (∀ db id, (UsuarioService.removeMysql db id).1 = true) ∧
    (∀ db id, (UsuarioService.remove db id).1 = true) ∧
    (∀ db id, (UsuarioMySqlRepository.delete db id).2 = true) ∧
    (∀ (db : NotasDb) (id : Int), (∀ r ∈ db.rows, r.id ≠ id) →
      (NotaFiscalService.remove db id).1 = .error "Nota não encontrada") ∧
    (∀ (lista : List PlainProduto) (id : Int), (∀ p ∈ lista, p.id ≠ id) →
      (ProdutoService.remove lista id).1 = .error "Produto não encontrado") := by
  refine ⟨fun _ _ => rfl, fun _ _ => rfl, fun _ _ => rfl, ?_, ?_⟩
  · intro db id h
    have hf : db.rows.filter (fun r => r.id != id) = db.rows :=
      List.filter_eq_self.mpr (fun r hr => by simpa using h r hr)
    unfold NotaFiscalService.remove NotaFiscalSqliteRepository.delete
    simp [hf]
  · intro lista id h
    have hf : lista.filter (fun p => p.id != id) = lista :=
      List.filter_eq_self.mpr (fun p hp => by simpa using h p hp)
    unfold ProdutoService.remove ProdutoJsonRepository.delete
    simp [hf]

/-- C10 witness: concrete instances of the five conjuncts, removing a
user id with no stored record and removing absent invoice and product
ids. -/
theorem claim_C10_user_remove_always_true_witness :
    (UsuarioService.removeMysql ⟨[⟨1, "Ana", "a@x.com", "H", "T"⟩], 1⟩ 5).1 = true ∧
    (NotaFiscalService.remove ⟨[], 0⟩ 7).1 = .error "Nota não encontrada" ∧
    (ProdutoService.remove [] 7).1 = .error "Produto não encontrado" :=
  ⟨claim_C10_user_remove_always_true.1 _ 5,
   claim_C10_user_remove_always_true.2.2.2.1 ⟨[], 0⟩ 7 (by simp),
   claim_C10_user_remove_always_true.2.2.2.2 [] 7 (by simp)⟩

/-! Login indistinguishability (claim C7). -/

/-- C7: a login whose e-mail resolves to no stored user and a login whose
e-mail resolves but whose password fails the hash comparison produce
identical results: the same single generic error. -/
theorem claim_C7_login_generic_error
    (compare : String → String → Bool) (db1 db2 : UsersDb)
    (email1 senha1 email2 senha2 : String) (u : Usuario)
    (h1 : UsuarioSqliteRepository.findByEmail db1 email1 = .ok none)
    (h2 : UsuarioSqliteRepository.findByEmail db2 email2 = .ok (some u))
    (h3 : compareSenha compare senha2 u.senha_hash = false) :
    AuthService.login compare db1 email1 senha1 =
      AuthService.login compare db2 email2 senha2 ∧
    AuthService.login compare db1 email1 senha1 =
      .error "Usuário/senha inválidos." := by
  unfold AuthService.login
  rw [h1, h2]
  simp [h3]

/-- C7 witness: a concrete store where the first login misses the e-mail
and the second fails the comparison; both fail with the same error. -/
theorem claim_C7_login_generic_error_witness :
    AuthService.login (fun p h => p ++ "#" == h)
      ⟨[⟨1, "Ana", "a@x.com", "pw#", "T"⟩], 1⟩ "b@x.com" "pw" =
      AuthService.login (fun p h => p ++ "#" == h)
        ⟨[⟨1, "Ana", "a@x.com", "pw#", "T"⟩], 1⟩ "a@x.com" "wrong" ∧
    AuthService.login (fun p h => p ++ "#" == h)
      ⟨[⟨1, "Ana", "a@x.com", "pw#", "T"⟩], 1⟩ "b@x.com" "pw" =
      .error "Usuário/senha inválidos." :=
  claim_C7_login_generic_error _ _ _ _ _ _ _
    ⟨some 1, "Ana", "a@x.com", "pw#", "T"⟩ (by decide) (by decide) (by decide)

/-! Public views of users (claim C8). -/

theorem usuarioList_shape {db : UsersDb} {pubs : List PublicUsuario}
    (h : UsuarioService.list db = .ok pubs) :
    ∃ models, UsuarioSqliteRepository.findAll db = .ok models ∧
      pubs = models.map Usuario.toPublic := by
  unfold UsuarioService.list at h
  cases hf : UsuarioSqliteRepository.findAll db with
  | error e =>
    rw [hf] at h
    simp only [Except.map] at h
    exact absurd h (fun hc => Except.noConfusion hc)
  | ok models =>
    rw [hf] at h
    simp only [Except.map] at h
    injection h with h
    exact ⟨models, rfl, h.symm⟩

theorem usuarioGet_shape {db : UsersDb} {id : Int} {pu : PublicUsuario}
    (h : UsuarioService.get db id = .ok pu) :
    ∃ u, UsuarioSqliteRepository.findById db id = .ok (some u) ∧
      pu = u.toPublic := by
  unfold UsuarioService.get at h
  split at h
  next e heq => exact absurd h (fun hc => Except.noConfusion hc)
  next heq => exact absurd h (fun hc => Except.noConfusion hc)
  next u heq =>
    injection h with h
    exact ⟨u, heq, h.symm⟩

theorem usuarioUpdate_shape {db : UsersDb} {id : Int}
    {nome email : Option String} {res : PublicUsuario} {db2 : UsersDb}
    (h : UsuarioService.update db id nome email = (.ok res, db2)) :
    ∃ u : Usuario, res = u.toPublic := by
  unfold UsuarioService.update at h
  simp only [] at h
  repeat' split at h
  all_goals
    try exact absurd (congrArg Prod.fst h) (fun hc => Except.noConfusion hc)
  all_goals (
    have h1 := congrArg Prod.fst h
    injection h1 with h1
    exact ⟨_, h1.symm⟩)

theorem register_shape {hash : String → String} {db : UsersDb}
    {now nome email senha : String}
    {res : PublicUsuario × TokenPayload} {db2 : UsersDb}
    (h : AuthService.register hash db now nome email senha = (.ok res, db2)) :
    ∃ criado : Usuario,
      res = (criado.toPublic, generateJwt ⟨criado.id, criado.email⟩) := by
  unfold AuthService.register at h
  split at h
  next e heq =>
    exact absurd (congrArg Prod.fst h) (fun hc => Except.noConfusion hc)
  next u heq =>
    exact absurd (congrArg Prod.fst h) (fun hc => Except.noConfusion hc)
  next heq =>
    split at h
    next e heq2 =>
      exact absurd (congrArg Prod.fst h) (fun hc => Except.noConfusion hc)
    next sh heq2 =>
      split at h
      next e heq3 =>
        exact absurd (congrArg Prod.fst h) (fun hc => Except.noConfusion hc)
      next novo heq3 =>
        split at h
        next e heq4 =>
          exact absurd (congrArg Prod.fst h) (fun hc => Except.noConfusion hc)
        next dbx criado heq4 =>
          refine ⟨criado, ?_⟩
          have h1 := congrArg Prod.fst h
          injection h1 with h1
          exact h1.symm
        next dbx heq4 =>
          exact absurd (congrArg Prod.fst h) (fun hc => Except.noConfusion hc)

theorem login_shape {compare : String → String → Bool} {db : UsersDb}
    {email senha : String} {res : PublicUsuario × TokenPayload}
    (h : AuthService.login compare db email senha = .ok res) :
    ∃ u, UsuarioSqliteRepository.findByEmail db email = .ok (some u) ∧
      res = (u.toPublic, generateJwt ⟨u.id, u.email⟩) := by
  unfold AuthService.login at h
  split at h
  next e heq => exact absurd h (fun hc => Except.noConfusion hc)
  next heq => exact absurd h (fun hc => Except.noConfusion hc)
  next u heq =>
    split at h
    next hcmp => exact absurd h (fun hc => Except.noConfusion hc)
    next hcmp =>
      injection h with h
      exact ⟨u, heq, h.symm⟩

/-- C8: no API-facing result carries the password hash: the public
projection holds exactly id, nome, email and created_at (the type has no
senha_hash field); every user value returned by the service list, get and
update and by register and login is the public projection of a stored
model; and the token payload issued by register and login carries only
the id and e-mail of that user. -/
theorem claim_C8_no_senha_hash_output :
    (∀ u : Usuario, u.toPublic = ⟨u.id, u.nome, u.email, u.created_at⟩) ∧
    (∀ (db : UsersDb) (pubs : List PublicUsuario),
      UsuarioService.list db = .ok pubs →
      ∃ models, UsuarioSqliteRepository.findAll db = .ok models ∧
        pubs = models.map Usuario.toPublic) ∧
    (∀ (db : UsersDb) (id : Int) (pu : PublicUsuario),
      UsuarioService.get db id = .ok pu →
      ∃ u, UsuarioSqliteRepository.findById db id = .ok (some u) ∧
        pu = u.toPublic) ∧
    (∀ (db : UsersDb) (id : Int) (nome email : Option String)
      (res : PublicUsuario) (db2 : UsersDb),
      UsuarioService.update db id nome email = (.ok res, db2) →
      ∃ u : Usuario, res = u.toPublic) ∧
    (∀ (hash : String → String) (db : UsersDb) (now nome email senha : String)
      (res : PublicUsuario × TokenPayload) (db2 : UsersDb),
      AuthService.register hash db now nome email senha = (.ok res, db2) →
      ∃ criado : Usuario,
        res = (criado.toPublic, generateJwt ⟨criado.id, criado.email⟩)) ∧
    (∀ (compare : String → String → Bool) (db : UsersDb)
      (email senha : String) (res : PublicUsuario × TokenPayload),
      AuthService.login compare db email senha = .ok res →
      ∃ u, UsuarioSqliteRepository.findByEmail db email = .ok (some u) ∧
        res = (u.toPublic, generateJwt ⟨u.id, u.email⟩)) := by
  refine ⟨fun u => rfl, ?_, ?_, ?_, ?_, ?_⟩
  · intro db pubs h
    exact usuarioList_shape h
  · intro db id pu h
    exact usuarioGet_shape h
  · intro db id nome email res db2 h
    exact usuarioUpdate_shape h
  · intro hash db now nome email senha res db2 h
    exact register_shape h
  · intro compare db email senha res h
    exact login_shape h

/-- C8 witness: a concrete get returns the public projection of the
stored user and a concrete login returns that projection with a token
payload of only id and e-mail. -/
theorem claim_C8_no_senha_hash_output_witness :
    (∃ u, UsuarioSqliteRepository.findById
        ⟨[⟨1, "Ana", "a@x.com", "pw#", "T"⟩], 1⟩ 1 = .ok (some u) ∧
      (⟨some 1, "Ana", "a@x.com", "T"⟩ : PublicUsuario) = u.toPublic) ∧
    (∃ u, UsuarioSqliteRepository.findByEmail
        ⟨[⟨1, "Ana", "a@x.com", "pw#", "T"⟩], 1⟩ "a@x.com" = .ok (some u) ∧
      ((⟨some 1, "Ana", "a@x.com", "T"⟩, ⟨some 1, "a@x.com"⟩) :
          PublicUsuario × TokenPayload) =
        (u.toPublic, generateJwt ⟨u.id, u.email⟩)) :=
  ⟨claim_C8_no_senha_hash_output.2.2.1
      ⟨[⟨1, "Ana", "a@x.com", "pw#", "T"⟩], 1⟩ 1
      ⟨some 1, "Ana", "a@x.com", "T"⟩ (by decide),
   claim_C8_no_senha_hash_output.2.2.2.2.2 (fun p h => p ++ "#" == h)
      ⟨[⟨1, "Ana", "a@x.com", "pw#", "T"⟩], 1⟩ "a@x.com" "pw"
      (⟨some 1, "Ana", "a@x.com", "T"⟩, ⟨some 1, "a@x.com"⟩) (by decide)⟩

/-! Duplicate e-mail registration (claim C6). -/

theorem usuarioMake_ok_iff (id : Option Int)
    (nome email senha_hash created : String) (u : Usuario) :
    Usuario.make id nome email senha_hash created = .ok u ↔
      (¬ (jsTrim nome).length < 2 ∧ isEmailB (normalizeEmail email) = true ∧
       jsTrim senha_hash ≠ "" ∧
       u = ⟨id, jsTrim nome, normalizeEmail email, jsTrim senha_hash,
            created⟩) := by
  unfold Usuario.make
  by_cases h1 : (jsTrim nome).length < 2
  · rw [if_pos h1]
    refine iff_of_false (fun hc => Except.noConfusion hc) ?_
    rintro ⟨hc, -, -, -⟩
    exact hc h1
  · rw [if_neg h1]
    cases hE : isEmailB (normalizeEmail email) with
    | false =>
      rw [if_pos (by rw [hE]; rfl)]
      refine iff_of_false (fun hc => Except.noConfusion hc) ?_
      rintro ⟨-, hc, -, -⟩
      exact Bool.noConfusion hc
    | true =>
      rw [if_neg (by rw [hE]; decide)]
      by_cases h3 : jsTrim senha_hash = ""
      · rw [if_pos h3]
        refine iff_of_false (fun hc => Except.noConfusion hc) ?_
        rintro ⟨-, -, hc, -⟩
        exact hc h3
      · rw [if_neg h3]
        constructor
        · intro h4
          injection h4 with h4
          exact ⟨h1, rfl, h3, h4.symm⟩
        · rintro ⟨-, -, -, rfl⟩
          rfl

theorem findByEmail_of_wf {db : UsersDb} (hwf : WfUsers db) (email : String) :
    (∃ u, UsuarioSqliteRepository.findByEmail db email = .ok (some u)) ∨
      UsuarioSqliteRepository.findByEmail db email = .ok none := by
  unfold UsuarioSqliteRepository.findByEmail
  cases hf : db.rows.find? (fun r => r.email == email) with
  | none => exact Or.inr rfl
  | some r =>
    obtain ⟨u, hu⟩ := hwf r (List.mem_of_find?_eq_some hf)
    refine Or.inl ⟨u, ?_⟩
    show Except.map some (UsuarioSqliteRepository.fromDbRow r) =
      Except.ok (some u)
    rw [hu]
    rfl

theorem userRepoCreate_ok {db : UsersDb} {m : Usuario} {now : String}
    {db2 : UsersDb} {o : Option Usuario}
    (h : UsuarioSqliteRepository.create db m now = .ok (db2, o)) :
    (∀ r ∈ db.rows, r.email ≠ m.email) ∧
    db2 = ⟨db.rows ++ [⟨db.seq + 1, m.nome, m.email, m.senha_hash, now⟩],
           db.seq + 1⟩ := by
  unfold UsuarioSqliteRepository.create at h
  split at h
  next hdup => exact absurd h (fun hc => Except.noConfusion hc)
  next hdup =>
    simp only [] at h
    have hfresh : ∀ r ∈ db.rows, r.email ≠ m.email := by
      intro r hr
      have h2 := (List.any_eq_false).mp (Bool.eq_false_iff.mpr hdup) r hr
      simpa using h2
    cases hf : UsuarioSqliteRepository.findById
        ⟨db.rows ++ [⟨db.seq + 1, m.nome, m.email, m.senha_hash, now⟩],
         db.seq + 1⟩ (db.seq + 1) with
    | error e =>
      rw [hf] at h
      exact absurd h (fun hc => Except.noConfusion hc)
    | ok o2 =>
      rw [hf] at h
      injection h with h
      obtain ⟨h1, h2⟩ := Prod.mk.injEq .. |>.mp h
      exact ⟨hfresh, h1.symm⟩

theorem register_dup_fails {hash : String → String} {db : UsersDb}
    {now nome email senha : String} {u : UserRow}
    (hwf : WfUsers db) (hu : u ∈ db.rows)
    (hnorm : normalizeEmail email = u.email)
    (hsen : senha ≠ "") (hnome : ¬ (jsTrim nome).length < 2)
    (hhash : jsTrim (hash senha) ≠ "") :
    ∃ e, AuthService.register hash db now nome email senha = (.error e, db) ∧
      (e = "E-mail já cadastrado." ∨
       e = "UNIQUE constraint failed: usuarios.email") := by
  have hnormu : normalizeEmail u.email = u.email := by
    conv_lhs => rw [← hnorm]
    rw [normalizeEmail_idem, hnorm]
  have hEmailOk : isEmailB (normalizeEmail u.email) = true := by
    obtain ⟨m, hm⟩ := hwf u hu
    unfold UsuarioSqliteRepository.fromDbRow at hm
    exact ((usuarioMake_ok_iff _ _ _ _ _ _).mp hm).2.1
  have hEmailOk2 : isEmailB (normalizeEmail email) = true := by
    rw [hnorm, ← hnormu]
    exact hEmailOk
  rcases findByEmail_of_wf hwf email with ⟨w, hw⟩ | hnone
  · refine ⟨"E-mail já cadastrado.", ?_, Or.inl rfl⟩
    unfold AuthService.register
    rw [hw]
  · refine ⟨"UNIQUE constraint failed: usuarios.email", ?_, Or.inr rfl⟩
    have hhs : hashSenha hash senha = .ok (hash senha) := by
      unfold hashSenha
      rw [if_neg hsen]
    have hmk : Usuario.make none nome email (hash senha) now =
        .ok ⟨none, jsTrim nome, normalizeEmail email, jsTrim (hash senha),
             now⟩ :=
      (usuarioMake_ok_iff _ _ _ _ _ _).mpr ⟨hnome, hEmailOk2, hhash, rfl⟩
    have hany : db.rows.any
        (fun r => r.email == normalizeEmail email) = true := by
      refine List.any_eq_true.mpr ⟨u, hu, ?_⟩
      simp [hnorm]
    have hcr : UsuarioSqliteRepository.create db
        ⟨none, jsTrim nome, normalizeEmail email, jsTrim (hash senha), now⟩
        now = .error "UNIQUE constraint failed: usuarios.email" := by
      unfold UsuarioSqliteRepository.create
      rw [if_pos hany]
    unfold AuthService.register
    rw [hnone]
    simp only [hhs, hmk, hcr]

theorem register_state (hash : String → String) (db : UsersDb)
    (now nome email senha : String) :
    (AuthService.register hash db now nome email senha).2 = db ∨
    ∃ novo : Usuario, novo.email = normalizeEmail email ∧
      (∀ r ∈ db.rows, r.email ≠ novo.email) ∧
      (AuthService.register hash db now nome email senha).2 =
        ⟨db.rows ++ [⟨db.seq + 1, novo.nome, novo.email, novo.senha_hash,
                      now⟩], db.seq + 1⟩ := by
  unfold AuthService.register
  split
  next e heq => exact Or.inl rfl
  next w heq => exact Or.inl rfl
  next heq =>
    split
    next e heq2 => exact Or.inl rfl
    next sh heq2 =>
      split
      next e heq3 => exact Or.inl rfl
      next novo heq3 =>
        have hem : novo.email = normalizeEmail email := by
          rw [((usuarioMake_ok_iff _ _ _ _ _ _).mp heq3).2.2.2]
        split
        next e heq4 => exact Or.inl rfl
        next dbx criado heq4 =>
          obtain ⟨hfresh, hdb2⟩ := userRepoCreate_ok heq4
          exact Or.inr ⟨novo, hem, hfresh, hdb2⟩
        next dbx heq4 =>
          obtain ⟨hfresh, hdb2⟩ := userRepoCreate_ok heq4
          exact Or.inr ⟨novo, hem, hfresh, hdb2⟩

theorem normUnique_register (hash : String → String) (db : UsersDb)
    (now nome email senha : String) (h : NormUniqueEmails db) :
    NormUniqueEmails (AuthService.register hash db now nome email senha).2 := by
  rcases register_state hash db now nome email senha with
    heq | ⟨novo, hem, hfresh, heq⟩
  · rw [heq]
    exact h
  · rw [heq]
    obtain ⟨hnormed, hpw⟩ := h
    constructor
    · intro r hr
      rcases List.mem_append.mp hr with hr | hr
      · exact hnormed r hr
      · have hr2 : r = ⟨db.seq + 1, novo.nome, novo.email, novo.senha_hash,
            now⟩ := by simpa using hr
        rw [hr2]
        show normalizeEmail novo.email = novo.email
        rw [hem, normalizeEmail_idem]
    · rw [List.pairwise_append]
      refine ⟨hpw, List.pairwise_singleton _ _, ?_⟩
      intro a ha b hb
      have hb2 : b = ⟨db.seq + 1, novo.nome, novo.email, novo.senha_hash,
          now⟩ := by simpa using hb
      rw [hb2]
      show a.email ≠ novo.email
      exact hfresh a ha

theorem normUnique_at_most_one {db : UsersDb} (h : NormUniqueEmails db) :
    ∀ r1 ∈ db.rows, ∀ r2 ∈ db.rows,
      normalizeEmail r1.email = normalizeEmail r2.email → r1 = r2 := by
  obtain ⟨hnormed, hpw⟩ := h
  intro r1 h1 r2 h2 hne
  by_contra hne2
  have hsym : Symmetric (fun a b : UserRow => a.email ≠ b.email) :=
    fun a b hab hc => hab hc.symm
  apply hpw.forall hsym h1 h2 hne2
  rw [← hnormed r1 h1, ← hnormed r2 h2]
  exact hne

/-- C6: when the normalization (trim and lower-case) of the requested
e-mail equals a stored user row's e-mail, an otherwise valid registration
fails with a duplicate failure, either from the courtesy check of the
service (exact match) or from the UNIQUE(email) constraint of the store
(case variant), and the store is unchanged; register preserves the
invariant that stored e-mails are normalized and pairwise distinct, which
yields at most one stored record per normalized e-mail. -/
theorem claim_C6_duplicate_email :
    (∀ (hash : String → String) (db : UsersDb)
      (now nome email senha : String) (u : UserRow),
      WfUsers db → u ∈ db.rows → normalizeEmail email = u.email →
      senha ≠ "" → ¬ (jsTrim nome).length < 2 → jsTrim (hash senha) ≠ "" →
      ∃ e, AuthService.register hash db now nome email senha =
          (.error e, db) ∧
        (e = "E-mail já cadastrado." ∨
         e = "UNIQUE constraint failed: usuarios.email")) ∧
    (∀ (hash : String → String) (db : UsersDb)
      (now nome email senha : String), NormUniqueEmails db →
      NormUniqueEmails (AuthService.register hash db now nome email senha).2) ∧
    (∀ db : UsersDb, NormUniqueEmails db →
      ∀ r1 ∈ db.rows, ∀ r2 ∈ db.rows,
        normalizeEmail r1.email = normalizeEmail r2.email → r1 = r2) := by
  refine ⟨?_, ?_, ?_⟩
  · intro hash db now nome email senha u hwf hu hn hs hnm hh
    exact register_dup_fails hwf hu hn hs hnm hh
  · intro hash db now nome email senha h
    exact normUnique_register hash db now nome email senha h
  · intro db h
    exact normUnique_at_most_one h

/-- C6 witness: with "a@x.com" stored, registering the case variant
"A@x.com" fails with a duplicate failure and the store is unchanged. -/
theorem claim_C6_duplicate_email_witness :
    ∃ e, AuthService.register (fun s => s ++ "#")
        ⟨[⟨1, "Ana", "a@x.com", "pw#", "T"⟩], 1⟩ "T2" "Bob" "A@x.com" "pw" =
        (.error e, ⟨[⟨1, "Ana", "a@x.com", "pw#", "T"⟩], 1⟩) ∧
      (e = "E-mail já cadastrado." ∨
       e = "UNIQUE constraint failed: usuarios.email") :=
  claim_C6_duplicate_email.1 (fun s => s ++ "#")
    ⟨[⟨1, "Ana", "a@x.com", "pw#", "T"⟩], 1⟩ "T2" "Bob" "A@x.com" "pw"
    ⟨1, "Ana", "a@x.com", "pw#", "T"⟩
    (by
      intro r hr
      rw [List.mem_singleton] at hr
      subst hr
      exact ⟨⟨some 1, "Ana", "a@x.com", "pw#", "T"⟩, by decide⟩)
    (by decide) (by decide) (by decide) (by decide) (by decide)

/-! Generated ids of the file-backed and in-memory stores (claim C5). -/

theorem produtoMake_ok_iff (id : Option Int) (nome : String) (preco : ℚ)
    (p : Produto) :
    Produto.make id nome preco = .ok p ↔
      (¬ (jsTrim nome).length < 2 ∧ ¬ preco < 0 ∧
       p = ⟨id, jsTrim nome, round2 preco⟩) := by
  unfold Produto.make
  by_cases h1 : (jsTrim nome).length < 2
  · rw [if_pos h1]
    refine iff_of_false (fun hc => Except.noConfusion hc) ?_
    rintro ⟨hc, -, -⟩
    exact hc h1
  · rw [if_neg h1]
    by_cases h2 : preco < 0
    · rw [if_pos h2]
      refine iff_of_false (fun hc => Except.noConfusion hc) ?_
      rintro ⟨-, hc, -⟩
      exact hc h2
    · rw [if_neg h2]
      constructor
      · intro h3
        injection h3 with h3
        exact ⟨h1, h2, h3.symm⟩
      · rintro ⟨-, -, rfl⟩
        rfl

theorem produtoJsonCreate_id {lista l2 : List PlainProduto} {m novo : Produto}
    (h : ProdutoJsonRepository.create lista m = .ok (l2, novo)) :
    novo.id = some (ProdutoJsonRepository.maxIdPlus1 lista) ∧
    l2 = lista ++ [⟨ProdutoJsonRepository.maxIdPlus1 lista, novo.nome,
                    novo.preco⟩] := by
  unfold ProdutoJsonRepository.create at h
  simp only [] at h
  split at h
  next e heq => exact absurd h (fun hc => Except.noConfusion hc)
  next nv heq =>
    obtain ⟨-, -, hv⟩ := (produtoMake_ok_iff _ _ _ _).mp heq
    injection h with h
    obtain ⟨h1, h2⟩ := Prod.mk.injEq .. |>.mp h
    subst h2
    constructor
    · rw [hv]
    · exact h1.symm

theorem produtoMemCreate_id {st st2 : ProdutoMemState} {m novo : Produto}
    (h : ProdutoMemoryRepository.create st m = .ok (st2, novo)) :
    novo.id = some (ProdutoJsonRepository.maxIdPlus1 st.items) ∧
    st2 = ⟨st.items ++ [⟨ProdutoJsonRepository.maxIdPlus1 st.items, novo.nome,
                         novo.preco⟩], st.idSeq⟩ := by
  unfold ProdutoMemoryRepository.create at h
  simp only [] at h
  split at h
  next e heq => exact absurd h (fun hc => Except.noConfusion hc)
  next nv heq =>
    obtain ⟨-, -, hv⟩ := (produtoMake_ok_iff _ _ _ _).mp heq
    injection h with h
    obtain ⟨h1, h2⟩ := Prod.mk.injEq .. |>.mp h
    subst h2
    constructor
    · rw [hv]
    · exact h1.symm

theorem nfMemCreate_idSeq (st : NfMemState) (m : NotaFiscal) :
    (NotaFiscalMemoryRepository.create st m).2.idSeq = st.idSeq + 1 := by
  simp only [NotaFiscalMemoryRepository.create]
  split
  · rfl
  · rfl

theorem nfMemCreate_newId {st : NfMemState} {m novo : NotaFiscal}
    (h : (NotaFiscalMemoryRepository.create st m).1 = .ok (some novo)) :
    novo.id = some (st.idSeq + 1) := by
  simp only [NotaFiscalMemoryRepository.create] at h
  split at h
  next e heq => exact absurd h (fun hc => Except.noConfusion hc)
  next nv heq =>
    obtain ⟨-, -, -, -, hv⟩ := (notaMake_ok_iff _ _ _ _ _ _ _).mp heq
    have hid : nv.id = some (st.idSeq + 1) := by rw [hv]
    injection h with h
    unfold NotaFiscalMemoryRepository.findById at h
    simp only [] at h
    have hp : (fun n => NotaFiscalMemoryRepository.idMatches n
        (st.idSeq + 1)) nv = true := by
      show NotaFiscalMemoryRepository.idMatches nv (st.idSeq + 1) = true
      unfold NotaFiscalMemoryRepository.idMatches
      rw [hid]
      simp
    have hfind : List.find?
        (fun n => NotaFiscalMemoryRepository.idMatches n (st.idSeq + 1))
        (nv :: st.items) = some nv :=
      List.find?_cons_of_pos st.items hp
    rw [hfind] at h
    injection h with h
    rw [← h, hid]

theorem nfMemStep_idSeq_le (st : NfMemState) (op : NfMemOp) :
    st.idSeq ≤ (st.step op).idSeq := by
  cases op with
  | createOp m =>
    show st.idSeq ≤ (NotaFiscalMemoryRepository.create st m).2.idSeq
    rw [nfMemCreate_idSeq]
    omega
  | updateOp id m =>
    show st.idSeq ≤ (NotaFiscalMemoryRepository.update st id m).2.idSeq
    simp only [NotaFiscalMemoryRepository.update]
    split
    · exact le_refl _
    · split
      · exact le_refl _
      · exact le_refl _
  | deleteOp id =>
    show st.idSeq ≤ (NotaFiscalMemoryRepository.delete st id).1.idSeq
    simp only [NotaFiscalMemoryRepository.delete]
    exact le_refl _

theorem nfMemRun_idSeq_le (st : NfMemState) (ops : List NfMemOp) :
    st.idSeq ≤ (st.run ops).idSeq := by
  induction ops generalizing st with
  | nil => exact le_refl _
  | cons op ops ih =>
    show st.idSeq ≤ ((st.step op).run ops).idSeq
    exact le_trans (nfMemStep_idSeq_le st op) (ih (st.step op))

theorem mem_setFirst {l : List NotaFiscal} {id : Int} {a x : NotaFiscal}
    (h : x ∈ NotaFiscalMemoryRepository.setFirst l id a) : x ∈ l ∨ x = a := by
  induction l with
  | nil =>
    exact absurd h (by simp [NotaFiscalMemoryRepository.setFirst])
  | cons n rest ih =>
    unfold NotaFiscalMemoryRepository.setFirst at h
    split at h
    next hm =>
      rcases List.mem_cons.mp h with hx | hx
      · exact Or.inr hx
      · exact Or.inl (List.mem_cons_of_mem _ hx)
    next hm =>
      rcases List.mem_cons.mp h with hx | hx
      · exact Or.inl (by rw [hx]; exact List.mem_cons_self _ _)
      · rcases ih hx with h2 | h2
        · exact Or.inl (List.mem_cons_of_mem _ h2)
        · exact Or.inr h2

theorem nfMemInv_step {st : NfMemState} (hinv : NfMemInv st) (op : NfMemOp) :
    NfMemInv (st.step op) := by
  cases op with
  | createOp m =>
    show NfMemInv (NotaFiscalMemoryRepository.create st m).2
    simp only [NotaFiscalMemoryRepository.create]
    split
    next e heq =>
      intro n hn
      obtain ⟨i, hi, hle⟩ := hinv n hn
      refine ⟨i, hi, ?_⟩
      show i ≤ st.idSeq + 1
      omega
    next nv heq =>
      obtain ⟨-, -, -, -, hv⟩ := (notaMake_ok_iff _ _ _ _ _ _ _).mp heq
      intro n hn
      rcases List.mem_cons.mp hn with hx | hx
      · refine ⟨st.idSeq + 1, ?_, ?_⟩
        · rw [hx, hv]
        · show st.idSeq + 1 ≤ st.idSeq + 1
          omega
      · obtain ⟨i, hi, hle⟩ := hinv n hx
        refine ⟨i, hi, ?_⟩
        show i ≤ st.idSeq + 1
        omega
  | updateOp id m =>
    show NfMemInv (NotaFiscalMemoryRepository.update st id m).2
    simp only [NotaFiscalMemoryRepository.update]
    split
    next hnone => exact hinv
    next hsome =>
      split
      next e heq => exact hinv
      next atual heq =>
        obtain ⟨-, -, -, -, hv⟩ := (notaMake_ok_iff _ _ _ _ _ _ _).mp heq
        have hfind : ∃ n0, st.items.find?
            (fun n => NotaFiscalMemoryRepository.idMatches n id) = some n0 := by
          rcases hf : st.items.find?
              (fun n => NotaFiscalMemoryRepository.idMatches n id) with _ | n0
          · rw [hf] at hsome
            exact absurd rfl hsome
          · exact ⟨n0, rfl⟩
        obtain ⟨n0, hf⟩ := hfind
        obtain ⟨i0, hi0, hle0⟩ := hinv n0 (List.mem_of_find?_eq_some hf)
        have hmatch := List.find?_some hf
        have hid0 : id = i0 := by
          have h2 : (n0.id.getD 0 == id) = true := hmatch
          rw [hi0] at h2
          exact ((by simpa using h2 : i0 = id)).symm
        intro n hn
        rcases mem_setFirst hn with hx | hx
        · obtain ⟨i, hi, hle⟩ := hinv n hx
          refine ⟨i, hi, ?_⟩
          show i ≤ st.idSeq
          exact hle
        · refine ⟨id, ?_, ?_⟩
          · rw [hx, hv]
          · show id ≤ st.idSeq
            rw [hid0]
            exact hle0
  | deleteOp id =>
    show NfMemInv (NotaFiscalMemoryRepository.delete st id).1
    simp only [NotaFiscalMemoryRepository.delete]
    intro n hn
    obtain ⟨i, hi, hle⟩ := hinv n (List.mem_of_mem_filter hn)
    exact ⟨i, hi, hle⟩

theorem nfMemInv_run {st : NfMemState} (hinv : NfMemInv st)
    (ops : List NfMemOp) : NfMemInv (st.run ops) := by
  induction ops generalizing st with
  | nil => exact hinv
  | cons op ops ih =>
    show NfMemInv ((st.step op).run ops)
    exact ih (nfMemInv_step hinv op)

/-- C5 (amended): the JSON-file and memory product repositories generate
the id max(existing ids)+1, or 1 on an empty store, which does reuse the
id of a previously deleted maximal record; the memory invoice repository
instead assigns its pre-incremented counter, which never decreases along
any call sequence, so an id ever held by a stored invoice there is never
assigned again, though it need not equal max(existing)+1. -/
theorem claim_C5_generated_ids :
    (∀ (lista l2 : List PlainProduto) (m novo : Produto),
      ProdutoJsonRepository.create lista m = .ok (l2, novo) →
      novo.id = some (ProdutoJsonRepository.maxIdPlus1 lista) ∧
      l2 = lista ++ [⟨ProdutoJsonRepository.maxIdPlus1 lista, novo.nome,
                      novo.preco⟩]) ∧
    (∀ (st st2 : ProdutoMemState) (m novo : Produto),
      ProdutoMemoryRepository.create st m = .ok (st2, novo) →
      novo.id = some (ProdutoJsonRepository.maxIdPlus1 st.items) ∧
      st2 = ⟨st.items ++ [⟨ProdutoJsonRepository.maxIdPlus1 st.items,
                           novo.nome, novo.preco⟩], st.idSeq⟩) ∧
    (ProdutoJsonRepository.maxIdPlus1 [] = 1 ∧
     ∀ (lista : List PlainProduto) (mx : Int),
       (lista.map PlainProduto.id).max? = some mx →
       ProdutoJsonRepository.maxIdPlus1 lista = mx + 1) ∧
    (∀ (st : NfMemState) (m : NotaFiscal),
      (NotaFiscalMemoryRepository.create st m).2.idSeq = st.idSeq + 1 ∧
      ∀ novo, (NotaFiscalMemoryRepository.create st m).1 = .ok (some novo) →
        novo.id = some (st.idSeq + 1)) ∧
    (∀ (st : NfMemState) (ops : List NfMemOp),
      st.idSeq ≤ (st.run ops).idSeq) ∧
    (NfMemInv ⟨[], 0⟩ ∧ ∀ (st : NfMemState) (ops : List NfMemOp),
      NfMemInv st → NfMemInv (st.run ops)) ∧
    (∀ st : NfMemState, NfMemInv st →
      ∀ (ops : List NfMemOp) (m novo : NotaFiscal),
      (NotaFiscalMemoryRepository.create (st.run ops) m).1 = .ok (some novo) →
      ∀ n ∈ st.items, novo.id ≠ n.id) := by
  refine ⟨?_, ?_, ⟨rfl, ?_⟩, ?_, ?_, ⟨?_, ?_⟩, ?_⟩
  · intro lista l2 m novo h
    exact produtoJsonCreate_id h
  · intro st st2 m novo h
    exact produtoMemCreate_id h
  · intro lista mx h
    unfold ProdutoJsonRepository.maxIdPlus1
    rw [h]
  · intro st m
    exact ⟨nfMemCreate_idSeq st m, fun novo h => nfMemCreate_newId h⟩
  · intro st ops
    exact nfMemRun_idSeq_le st ops
  · intro n hn
    exact absurd hn (List.not_mem_nil n)
  · intro st ops hinv
    exact nfMemInv_run hinv ops
  · intro st hinv ops m novo h n hn
    obtain ⟨i, hi, hle⟩ := hinv n hn
    have hrun := nfMemRun_idSeq_le st ops
    have hid := nfMemCreate_newId h
    rw [hid, hi]
    intro hc
    injection hc with hc
    omega

unseal Rat.add Rat.mul Rat.sub Rat.inv in
/-- C5 witness: on a one-product store with id 2 the generated id is
max+1 = 3, and on an invoice memory store holding only id 1 with counter
3 a create yields id 4, distinct from the id of the stored invoice. -/
theorem claim_C5_generated_ids_witness :
    ((⟨some 3, "Pen", 4⟩ : Produto).id =
        some (ProdutoJsonRepository.maxIdPlus1 [⟨2, "Cup", 3⟩])) ∧
    ((⟨some 4, "NF-2", "Bob", [⟨1, 1⟩], 4, "T2"⟩ : NotaFiscal).id ≠
        (⟨some 1, "NF-1", "Alice", [⟨1, 2⟩], 7, "T"⟩ : NotaFiscal).id) :=
  ⟨(claim_C5_generated_ids.1 [⟨2, "Cup", 3⟩]
      ([⟨2, "Cup", 3⟩] ++ [⟨3, "Pen", 4⟩])
      ⟨none, "Pen", 4⟩ ⟨some 3, "Pen", 4⟩ (by decide)).1,
   claim_C5_generated_ids.2.2.2.2.2.2
      ⟨[⟨some 1, "NF-1", "Alice", [⟨1, 2⟩], 7, "T"⟩], 3⟩
      (by
        intro n hn
        rw [List.mem_singleton] at hn
        subst hn
        exact ⟨1, rfl, by decide⟩)
      [] ⟨none, "NF-2", "Bob", [⟨1, 1⟩], 4, "T2"⟩
      ⟨some 4, "NF-2", "Bob", [⟨1, 1⟩], 4, "T2"⟩ (by decide)
      ⟨some 1, "NF-1", "Alice", [⟨1, 2⟩], 7, "T"⟩ (by decide)⟩

unseal Rat.add Rat.mul Rat.sub Rat.inv in
/-- C5 counterexample: the claim that a deleted id is never reused within
the process is false for the memory product store: with ids 1 and 2
stored, deleting id 2 succeeds and the next create generates
max(existing)+1 = 2, the very id just deleted (the JSON-file store
computes the same id); moreover the memory invoice store does not follow
the max+1 rule: with only id 1 stored it assigns its counter successor,
not 2. -/
theorem claim_C5_counterexample :
    (¬ ∀ (st : ProdutoMemState) (id : Int) (m : Produto)
        (st2 st3 : ProdutoMemState) (novo : Produto),
        ProdutoMemoryRepository.delete st id = (st2, true) →
        ProdutoMemoryRepository.create st2 m = .ok (st3, novo) →
        novo.id ≠ some id) ∧
    (¬ ∀ (st : NfMemState) (m novo : NotaFiscal),
        st.items.map NotaFiscal.id = [some 1] →
        (NotaFiscalMemoryRepository.create st m).1 = .ok (some novo) →
        novo.id = some 2) := by
  constructor
  · intro h
    exact h ⟨[⟨1, "Pen", 4⟩, ⟨2, "Cup", 3⟩], 0⟩ 2 ⟨none, "Cup", 3⟩
      ⟨[⟨1, "Pen", 4⟩], 0⟩ ⟨[⟨1, "Pen", 4⟩, ⟨2, "Cup", 3⟩], 0⟩
      ⟨some 2, "Cup", 3⟩ (by decide) (by decide) rfl
  · intro h
    have h2 := h ⟨[⟨some 1, "NF-1", "Alice", [⟨1, 2⟩], 7, "T"⟩], 3⟩
      ⟨none, "NF-2", "Bob", [⟨1, 1⟩], 4, "T2"⟩
      ⟨some 4, "NF-2", "Bob", [⟨1, 1⟩], 4, "T2"⟩ (by decide) (by decide)
    exact absurd h2 (by decide)

end ApiCrud
